import Mathlib

/-!
# Verification of the etcd storage/locking engine (caddy-etcd)

Shallow embedding of the storage service implemented by `etcd.go` /
`operations.go` (final variants: `src/unnamed/part_002`, `src/unnamed/part_006`,
`src/unnamed/part_005`).

Modelling conventions:

* etcd keys are slash-separated paths; we model a (cleaned) path as its list of
  segments (`path.Join` on clean components is list append).
* the etcd v2 keyspace is a tree of directories and value leaves; values as
  transmitted are base64 strings, which we model by the decoded payload
  (`base64` encode/decode is a bijection on byte strings).  Leaf payloads are
  tagged by what they decode to (raw bytes, Metadata JSON, Lock JSON): JSON
  marshal/unmarshal of the record types is injective, and we do not model a
  raw byte payload accidentally parsing as a record.
* `time.Time` (always UTC here) is an integer instant; `Sub` is subtraction,
  `After` is `>`; the zero value of `time.Time` is `0`.
* the external `crypto/sha1` digest and the JSON encodings are opaque
  parameters of the model (bundled in `Ambient`): the code only ever
  propagates and compares them.
* `backoff.Retry(op, b)` (external library, spec §4.1) re-invokes `op` until it
  succeeds or the policy is exhausted and returns the last failure; we model
  the policy by the number `b` of additional attempts it grants (the library
  resets the policy on each `Retry` call, so a fresh budget per call is
  faithful).
* every etcd client call is recorded in a call log so that retry behaviour is
  observable; an `Env` failure schedule says which client calls fail with a
  transient (non-"key not found") error, modelling an unreachable or erroring
  store.  `healthy` is the schedule with no failures.
-/

/-- A cleaned etcd path, as its list of slash-separated segments. -/
abbrev Key := List String

/-- Byte strings (`[]byte`). -/
abbrev Bytes := List Nat

/-- UTC instants (`time.Time`). -/
abbrev Time := Int

/-- Renders a key the way Go prints the joined path (for error messages). -/
def showKey (k : Key) : String :=
  String.intercalate "/" ("" :: k)

/-- Metadata stores information about a particular node that represents a file
in etcd (struct `Metadata` of `src/unnamed/part_002`). -/
structure Metadata where
  Path : Key
  Size : Nat
  Timestamp : Time
  Hash : Bytes
  IsDir : Bool
  deriving DecidableEq, Repr

/-- Zero value of `[20]byte`. -/
def zeroHash : Bytes := List.replicate 20 0

/-- Go zero value of `Metadata` (`new(Metadata)`). -/
def zeroMetadata : Metadata :=
  { Path := [], Size := 0, Timestamp := 0, Hash := zeroHash, IsDir := false }

/-- Lock record stored at a lock node (struct `Lock` of `src/unnamed/part_002`);
`Obtained` is a marshalled UTC time, modelled by the instant itself. -/
structure LockRec where
  Token : String
  Obtained : Time
  Key : Key
  deriving DecidableEq, Repr

/-- Decoded payload of an etcd value node: raw data bytes, Metadata JSON, or
Lock JSON (all base64-encoded on the wire). -/
inductive EVal where
  | raw (b : Bytes)
  | md (m : Metadata)
  | lk (l : LockRec)
  deriving DecidableEq, Repr

/-- Go `error` values produced by the code under study.  `wrap` is
`errors.Wrap`/`errors.Wrapf` (a context message around a cause). -/
inductive GoError where
  | keyNotFound (key : Key)
  | etcdOther (key : Key)
  | notAFile (key : Key)
  | simple (s : String)
  | notExist (key : Key)
  | failedChecksum (key : Key)
  | wrap (context : String) (cause : GoError)
  deriving DecidableEq, Repr

/-- The message of an error (`err.Error()`), used by `%s` formatting. -/
def GoError.render : GoError → String
  | .keyNotFound k => "100: Key not found (" ++ showKey k ++ ")"
  | .etcdOther k => "etcd: transient error (" ++ showKey k ++ ")"
  | .notAFile k => "102: Not a file (" ++ showKey k ++ ")"
  | .simple s => s
  | .notExist k => "key " ++ showKey k ++ " does not exist"
  | .failedChecksum k => "key " ++ showKey k ++ " does not exist"
  | .wrap c e => c ++ ": " ++ e.render

/-- `client.IsKeyNotFound` (a type/code test on the raw client error). -/
def IsKeyNotFound : GoError → Bool
  | .keyNotFound _ => true
  | _ => false

/-- `backoff.Operation` over a state `σ`: a fallible unit of work. -/
abbrev Op (σ : Type) := σ → σ × Option GoError

/-- `backoff.Retry(o, b)` where the policy grants `b` additional attempts:
run `o`; on failure, retry until the budget is exhausted; return the last
failure. -/
def retry {σ : Type} : Nat → Op σ → σ → σ × Option GoError
  | 0, o, s => o s
  | b + 1, o, s =>
    match o s with
    | (s', none) => (s', none)
    | (s', some _) => retry b o s'

/-- The rollback loop of `pipeline` (`src/unnamed/part_006` lines 19-28):
`for i := idx-1; i >= 0; i--`, skipping indices with no rollback entry, and
folding each rollback failure onto the error via
`errors.Wrapf(err, "error on rollback: %s", errR)`.  The first argument is
`idx`, the index of the failed commit. -/
def rollbackFrom {σ : Type} (rollbacks : List (Op σ)) (b : Nat) :
    Nat → σ → GoError → σ × GoError
  | 0, s, e => (s, e)
  | i + 1, s, e =>
    if h : i < rollbacks.length then
      match retry b (rollbacks.get ⟨i, h⟩) s with
      | (s', none) => rollbackFrom rollbacks b i s' e
      | (s', some eR) =>
          rollbackFrom rollbacks b i s'
            (.wrap ("error on rollback: " ++ eR.render) e)
    else rollbackFrom rollbacks b i s e

/-- The commit loop of `pipeline`, carrying the current index `idx`. -/
def pipelineAux {σ : Type} (rollbacks : List (Op σ)) (b : Nat) :
    List (Op σ) → Nat → σ → σ × Option GoError
  | [], _, s => (s, none)
  | c :: cs, idx, s =>
    match retry b c s with
    | (s', none) => pipelineAux rollbacks b cs (idx + 1) s'
    | (s', some e) =>
      let r := rollbackFrom rollbacks b idx s' e
      (r.1, some r.2)

/-- `pipeline(commits, rollbacks, b)` of `src/unnamed/part_006` lines 14-33:
execute commits in order with retry; on the first failure run the available
rollbacks for the earlier steps in reverse order, aggregating rollback
failures onto the returned error. -/
def pipeline {σ : Type} (commits rollbacks : List (Op σ)) (b : Nat) (s : σ) :
    σ × Option GoError :=
  pipelineAux rollbacks b commits 0 s

/-- Execution events, used to make the order of operations observable. -/
inductive Ev where
  | commit (i : Nat)
  | rollback (i : Nat)
  deriving DecidableEq, Repr

/-- Instruments an operation so that each invocation appends an event to a
log carried next to the state. -/
def instr {σ : Type} (ev : Ev) (o : Op σ) : Op (σ × List Ev) :=
  fun s => (((o s.1).1, s.2 ++ [ev]), (o s.1).2)

/-- Instruments a list of operations with events `tag i`, `tag (i+1)`, …. -/
def instrList {σ : Type} (tag : Nat → Ev) : Nat → List (Op σ) → List (Op (σ × List Ev))
  | _, [] => []
  | i, o :: os => instr (tag i) o :: instrList tag (i + 1) os

/-! ## The etcd v2 keyspace

etcd v2 stores a tree: inner nodes are directories, leaves hold values.  We
use a mutual inductive (rather than a nested `List`) so that all functions
are plain structural recursions that the kernel can evaluate. -/

mutual
/-- A node of the etcd keyspace: a value leaf or a directory. -/
inductive ENode where
  | leaf (v : EVal)
  | dir (children : EDir)
/-- Children of a directory: an association list from segment names to nodes. -/
inductive EDir where
  | nil
  | cons (name : String) (node : ENode) (rest : EDir)
end

/-- Looks up a child by segment name. -/
def lookupChild (s : String) : EDir → Option ENode
  | .nil => none
  | .cons name n rest => if name = s then some n else lookupChild s rest

/-- Replaces the child named `s` (no-op when absent). -/
def replaceChild (s : String) (n' : ENode) : EDir → EDir
  | .nil => .nil
  | .cons name n rest =>
    if name = s then .cons name n' rest else .cons name n (replaceChild s n' rest)

/-- Appends a new child at the end. -/
def appendChild (cs : EDir) (s : String) (n : ENode) : EDir :=
  match cs with
  | .nil => .cons s n .nil
  | .cons name n0 rest => .cons name n0 (appendChild rest s n)

/-- A fresh chain of directories ending in a leaf holding `v` (etcd creates
missing intermediate directories on Set). -/
def freshPath (v : EVal) : Key → ENode
  | [] => .leaf v
  | s :: rest => .dir (.cons s (freshPath v rest) .nil)

/-- Resolves a path to the node stored there, if any.  A path that runs into
a value leaf resolves to nothing ("key not found"). -/
def getNode (t : ENode) : Key → Option ENode :=
  fun k =>
    match k, t with
    | [], n => some n
    | _ :: _, .leaf _ => none
    | s :: rest, .dir cs =>
      match lookupChild s cs with
      | none => none
      | some n => getNode n rest

/-- etcd Set: upsert a value leaf at a path, creating missing directories.
Fails (`none`) when the target is a directory ("Not a file") or the path
descends through an existing value leaf ("Not a dir"), and on the root. -/
def setLeaf (v : EVal) : Key → ENode → Option ENode
  | [], .leaf _ => some (.leaf v)
  | [], .dir _ => none
  | _ :: _, .leaf _ => none
  | s :: rest, .dir cs =>
    match lookupChild s cs with
    | some n => (setLeaf v rest n).map (fun n' => .dir (replaceChild s n' cs))
    | none => some (.dir (appendChild cs s (freshPath v rest)))

/-- Removes the child named `s`. -/
def removeChild (s : String) : EDir → EDir
  | .nil => .nil
  | .cons name n rest =>
    if name = s then rest else .cons name n (removeChild s rest)

/-- etcd Delete (plain, non-recursive): remove the value leaf at a path.
Fails when the path is absent, a directory, or the root. -/
def delLeaf : Key → ENode → Option ENode
  | [], _ => none
  | _ :: _, .leaf _ => none
  | [s], .dir cs =>
    match lookupChild s cs with
    | some (.leaf _) => some (.dir (removeChild s cs))
    | _ => none
  | s :: rest@(_ :: _), .dir cs =>
    match lookupChild s cs with
    | some n => (delLeaf rest n).map (fun n' => .dir (replaceChild s n' cs))
    | none => none

/-! ## The etcd client responses (`client.Node`) -/

mutual
/-- `client.Node` of an etcd response: full key, decoded value (directories
carry an empty value, modelled as `none`), directory flag, children. -/
inductive CNode where
  | mk (key : Key) (value : Option EVal) (dir : Bool) (nodes : CNodes)
/-- The `Nodes` slice of a response node. -/
inductive CNodes where
  | nil
  | cons (n : CNode) (rest : CNodes)
end

def CNode.key : CNode → Key
  | .mk k _ _ _ => k

def CNode.value : CNode → Option EVal
  | .mk _ v _ _ => v

def CNode.dir : CNode → Bool
  | .mk _ _ d _ => d

def CNode.nodes : CNode → CNodes
  | .mk _ _ _ ns => ns

def CNodes.isNil : CNodes → Bool
  | .nil => true
  | .cons _ _ => false

mutual
/-- Renders the stored subtree at `k` as the response node of a recursive Get. -/
def toCNode (k : Key) : ENode → CNode
  | .leaf v => .mk k (some v) false .nil
  | .dir cs => .mk k none true (toCNodes k cs)
def toCNodes (k : Key) : EDir → CNodes
  | .nil => .nil
  | .cons s n rest => .cons (toCNode (k ++ [s]) n) (toCNodes k rest)
end

mutual
/-- `walkNodes` of `src/unnamed/part_006` lines 209-221: append the node
itself, then flatten each child (children with a nil `Nodes` slice are
appended directly; for a childless directory both branches agree, so the
`n.Nodes == nil` test is modelled by emptiness). -/
def walkNodes : CNode → List CNode
  | .mk k v d ns => .mk k v d ns :: walkList ns
def walkList : CNodes → List CNode
  | .nil => []
  | .cons n rest =>
    (if n.nodes.isNil then [n] else walkNodes n) ++ walkList rest
end

/-! ## The etcd client with a failure schedule and a call log -/

/-- The kind of an etcd client call. -/
inductive ReqKind where
  | get
  | set
  | del
  deriving DecidableEq, Repr

/-- An etcd client call: kind, target key, and (for Get) the Recursive flag. -/
structure Req where
  kind : ReqKind
  key : Key
  recursive : Bool
  deriving DecidableEq, Repr

/-- A failure schedule: which client calls fail with a transient error. -/
abbrev Env := Req → Bool

/-- The schedule with no injected failures (a reachable, healthy store). -/
def healthy : Env := fun _ => false

/-- The store state: the keyspace plus the log of client calls issued. -/
structure World where
  tree : ENode
  calls : List Req

/-- `cli.Get(ctx, key, opts)`: returns the resolved (sub)tree or a
"key not found" error; the response is `nil` exactly on error. -/
def cliGet (env : Env) (k : Key) (recursive : Bool) (w : World) :
    World × Except GoError ENode :=
  let w' := { w with calls := w.calls ++ [⟨.get, k, recursive⟩] }
  if env ⟨.get, k, recursive⟩ then (w', .error (.etcdOther k))
  else
    match getNode w.tree k with
    | none => (w', .error (.keyNotFound k))
    | some n => (w', .ok n)

/-- `cli.Set(ctx, key, value, nil)`. -/
def cliSet (env : Env) (k : Key) (v : EVal) (w : World) : World × Option GoError :=
  let w' := { w with calls := w.calls ++ [⟨.set, k, false⟩] }
  if env ⟨.set, k, false⟩ then (w', some (.etcdOther k))
  else
    match setLeaf v k w.tree with
    | none => (w', some (.notAFile k))
    | some t => ({ w' with tree := t }, none)

/-- `cli.Delete(ctx, key, nil)`. -/
def cliDel (env : Env) (k : Key) (w : World) : World × Option GoError :=
  let w' := { w with calls := w.calls ++ [⟨.del, k, false⟩] }
  if env ⟨.del, k, false⟩ then (w', some (.etcdOther k))
  else
    match delLeaf k w.tree with
    | none => (w', some (.keyNotFound k))
    | some t => ({ w' with tree := t }, none)

/-! ## Raw key-value operations (`src/unnamed/part_006` lines 45-177) -/

/-- External functions the code uses but never inspects: the `crypto/sha1`
digest and the JSON wire encodings of the record types. -/
structure Ambient where
  sha1Sum : Bytes → Bytes
  jsonMD : Metadata → Bytes
  jsonLK : LockRec → Bytes

/-- The decoded bytes of a node value as seen by `get` (a directory node has
an empty `Value` string, which base64-decodes to no bytes). -/
def valBytes (A : Ambient) : EVal → Bytes
  | .raw b => b
  | .md m => A.jsonMD m
  | .lk l => A.jsonLK l

/-- `unmarshalMD` on a node value: decoding succeeds exactly on Metadata JSON
(a raw or Lock payload is not a Metadata document). -/
def unmarshalEVal : EVal → Option Metadata
  | .md m => some m
  | _ => none

/-- `NewMetadata(key, data)` (`src/unnamed/part_002` lines 52-59), with the
sampled `time.Now().UTC()` made explicit. -/
def NewMetadata (A : Ambient) (key : Key) (data : Bytes) (now : Time) : Metadata :=
  { Path := key
    Size := data.length
    Timestamp := now
    Hash := A.sha1Sum data
    IsDir := false }

/-- The state threaded through a `Store` pipeline: the store world plus the
locals the operation closures share by pointer — the `bytes.Buffer` that
`get` appends into and the `*Metadata` that `getMD` fills. -/
structure OpState where
  w : World
  buf : Bytes
  md : Metadata

/-- `get(cli, key, dst)`: fetch and decode a value, appending it to `dst`;
a missing key succeeds and appends nothing (and so does a directory, whose
response value is empty). -/
def getOp (A : Ambient) (env : Env) (k : Key) : Op OpState := fun s =>
  match cliGet env k false s.w with
  | (w', .error e) =>
    if IsKeyNotFound e then ({ s with w := w' }, none)
    else ({ s with w := w' }, some (.wrap "get: error retrieving value" e))
  | (w', .ok (.leaf v)) => ({ s with w := w', buf := s.buf ++ valBytes A v }, none)
  | (w', .ok (.dir _)) => ({ s with w := w' }, none)

/-- `set(cli, key, value)`: unconditional upsert of the base64-encoded bytes. -/
def setOp (env : Env) (k : Key) (value : Bytes) : Op OpState := fun s =>
  match cliSet env k (.raw value) s.w with
  | (w', none) => ({ s with w := w' }, none)
  | (w', some e) => ({ s with w := w' }, some (.wrap "set: failed to set key value" e))

/-- `del(cli, key)`: delete, propagating any failure. -/
def delOp (env : Env) (k : Key) : Op OpState := fun s =>
  match cliDel env k s.w with
  | (w', none) => ({ s with w := w' }, none)
  | (w', some e) =>
    ({ s with w := w' }, some (.wrap ("del: failed to delete key: " ++ showKey k) e))

/-- `setMD(cli, key, m)`: store the metadata record (JSON, base64-encoded). -/
def setMDOp (env : Env) (k : Key) (m : Metadata) : Op OpState := fun s =>
  match cliSet env k (.md m) s.w with
  | (w', none) => ({ s with w := w' }, none)
  | (w', some e) => ({ s with w := w' }, some (.wrap "setmd: failed to set metadata value" e))

/-- The aggregation loop of `getMD` over the flattened response nodes:
directories are skipped; each terminal node's metadata is decoded, its size
added, and its timestamp folded by `After` into the running record.  Returns
the (possibly partially updated) record and the first decode failure. -/
def aggregateMD : List CNode → Metadata → Metadata × Option GoError
  | [], m => (m, none)
  | n :: rest, m =>
    if n.dir then aggregateMD rest m
    else
      match n.value.bind unmarshalEVal with
      | none => (m, some (.wrap "getmd: failed to unmarshal metadata response" (.simple "json: cannot unmarshal")))
      | some md1 =>
        aggregateMD rest
          { m with
            Size := m.Size + md1.Size
            Timestamp := if md1.Timestamp > m.Timestamp then md1.Timestamp else m.Timestamp }

/-- `getMD(cli, key, m)` (`src/unnamed/part_006` lines 102-140): recursive
Get; a directory response synthesizes aggregate metadata into `m` (path set
to the queried key, directory flag set, sizes summed and timestamps maxed
over terminal descendants), a leaf response is decoded into `m`. -/
def getMDOp (env : Env) (k : Key) : Op OpState := fun s =>
  match cliGet env k true s.w with
  | (w', .error e) =>
    ({ s with w := w' }, some (.wrap "getmd: failed to get metadata response" e))
  | (w', .ok n) =>
    match toCNode k n with
    | .mk _ _ true ns =>
      let m0 := { s.md with Path := k, IsDir := true }
      match aggregateMD (walkNodes (.mk k none true ns)) m0 with
      | (m1, none) => ({ s with w := w', md := m1 }, none)
      | (m1, some e) => ({ s with w := w', md := m1 }, some e)
    | .mk _ v false _ =>
      match v.bind unmarshalEVal with
      | some m1 => ({ s with w := w', md := m1 }, none)
      | none =>
        ({ s with w := w' },
          some (.wrap "getmd: failed to unmarshal metadata response" (.simple "json: cannot unmarshal")))

/-- `noop()`: an operation that always succeeds. -/
def noopOp : Op OpState := fun s => (s, none)

/-- A retryable unit of work that also produces a value (used for closures
that write their result through a pointer, like `exists` and the list
fetch). -/
abbrev ROp (σ α : Type) := σ → σ × Except GoError α

/-- `backoff.Retry` for a value-producing operation. -/
def retryR {σ α : Type} : Nat → ROp σ α → σ → σ × Except GoError α
  | 0, o, s => o s
  | b + 1, o, s =>
    match o s with
    | (s', .ok a) => (s', .ok a)
    | (s', .error _) => retryR b o s'

/-- `exists(cli, key, out)` (`src/unnamed/part_006` lines 162-177): Get,
mapping "key not found" to `false` and any other failure to an error. -/
def existsR (env : Env) (k : Key) : ROp World Bool := fun w =>
  match cliGet env k false w with
  | (w', .error e) =>
    if IsKeyNotFound e then (w', .ok false)
    else (w', .error (.wrap "exists: failed to check key" e))
  | (w', .ok _) => (w', .ok true)

/-- `(*etcdsrv).execute` (`src/unnamed/part_002` lines 184-191): a single
attempt when `noBackoff` is set, otherwise exponential-backoff retry. -/
def executeOp {σ : Type} (noBackoff : Bool) (b : Nat) (o : Op σ) (s : σ) :
    σ × Option GoError :=
  match noBackoff with
  | true => o s
  | false => retry b o s

/-- `execute` for a value-producing operation. -/
def executeR {σ α : Type} (noBackoff : Bool) (b : Nat) (o : ROp σ α) (s : σ) :
    σ × Except GoError α :=
  match noBackoff with
  | true => o s
  | false => retryR b o s

/-- `list(cli, key)` (`src/unnamed/part_006` lines 179-207): recursive Get
with retry; "key not found" (a nil response) yields an empty node list and
no error; otherwise the response subtree is flattened by `walkNodes`. -/
def listLL (env : Env) (b : Nat) (k : Key) (w : World) :
    World × Except GoError (List CNode) :=
  match retryR b (fun w1 =>
      match cliGet env k true w1 with
      | (w', .error e) =>
        if IsKeyNotFound e then (w', .ok none)
        else (w', .error (.wrap "list: unable to get list" e))
      | (w', .ok n) => (w', .ok (some n))) w with
  | (w1, .error e) => (w1, .error e)
  | (w1, .ok none) => (w1, .ok [])
  | (w1, .ok (some n)) => (w1, .ok (walkNodes (toCNode k n)))

/-! ## The storage service (`src/unnamed/part_002`)

`NewService` computes `mdPrefix = KeyPrefix + "/md"` and
`lockKey = KeyPrefix + "/lock"`; with keys as segment lists the joins below
are list appends. -/

/-- `path.Join(cfg.KeyPrefix, key)`. -/
def dataKeyOf (pre key : Key) : Key := pre ++ key

/-- `path.Join(mdPrefix, key)` where `mdPrefix = KeyPrefix + "/md"`. -/
def mdKeyOf (pre key : Key) : Key := pre ++ ["md"] ++ key

/-- `path.Join(lockKey, key)` where `lockKey = KeyPrefix + "/lock"`. -/
def lockKeyOf (pre key : Key) : Key := pre ++ ["lock"] ++ key

/-- `strings.TrimPrefix` on paths (segment-wise: the joined paths always cut
at a segment boundary). -/
def trimPre (p cut : Key) : Key :=
  if cut.isPrefixOf p then p.drop cut.length else p

/-- `Store(key, value)` (`src/unnamed/part_002` lines 195-221).  When the
metadata node exists, the commits read the previous value and metadata and
then overwrite both; the rollback list is built **before** the pipeline
runs, so — exactly as in Go, where `valPrev.Bytes()` and `*mdPrev` are
evaluated when the `tx(...)` arguments are constructed — the rollback `set`
captures the still-empty buffer contents and the rollback `setMD` captures
the zero `Metadata`, not the previously stored ones. -/
def StoreSrv (A : Ambient) (env : Env) (nb : Bool) (b bp : Nat)
    (pre key : Key) (value : Bytes) (now : Time) (w : World) :
    World × Option GoError :=
  let storageKey := dataKeyOf pre key
  let storageKeyMD := mdKeyOf pre key
  let md := NewMetadata A key value now
  match executeR nb b (existsR env storageKeyMD) w with
  | (w1, .error e) => (w1, some (.wrap "store: failed to get old metadata" e))
  | (w1, .ok ex) =>
    let s0 : OpState := { w := w1, buf := [], md := zeroMetadata }
    match ex with
    | true =>
      let commits := [getOp A env storageKey, getMDOp env storageKeyMD,
        setOp env storageKey value, setMDOp env storageKeyMD md]
      let rollbacks := [noopOp, noopOp,
        setOp env storageKey s0.buf, setMDOp env storageKeyMD s0.md]
      let r := pipeline commits rollbacks bp s0
      (r.1.w, r.2)
    | false =>
      let commits := [setOp env storageKey value, setMDOp env storageKeyMD md]
      let rollbacks := [delOp env storageKey, delOp env storageKeyMD]
      let r := pipeline commits rollbacks bp s0
      (r.1.w, r.2)

/-- `Load(key)` (`src/unnamed/part_002` lines 226-255): NotExist when the
metadata node is absent; otherwise load metadata then data, and fail with
FailedChecksum unless the data's digest equals the recorded hash. -/
def LoadSrv (A : Ambient) (env : Env) (nb : Bool) (b : Nat)
    (pre key : Key) (w : World) : World × Except GoError Bytes :=
  let storageKey := dataKeyOf pre key
  let storageKeyMD := mdKeyOf pre key
  match executeR nb b (existsR env storageKeyMD) w with
  | (w1, .error e) => (w1, .error (.wrap "load: could not get existence of key" e))
  | (w1, .ok false) => (w1, .error (.notExist key))
  | (w1, .ok true) =>
    match executeOp nb b (getMDOp env storageKeyMD) { w := w1, buf := [], md := zeroMetadata } with
    | (s2, some e) => (s2.w, .error (.wrap "load: could not get metadata" e))
    | (s2, none) =>
      match executeOp nb b (getOp A env storageKey) { w := s2.w, buf := [], md := s2.md } with
      | (s3, some e) => (s3.w, .error (.wrap "load: could not get data" e))
      | (s3, none) =>
        let value := s3.buf
        if A.sha1Sum value = s3.md.Hash then (s3.w, .ok value)
        else (s3.w, .error (.failedChecksum key))

/-- `Metadata(key)` (`src/unnamed/part_002` lines 271-295): NotExist when the
metadata node is absent; otherwise the (possibly synthesized directory)
metadata, trimming the metadata namespace off a directory's path. -/
def MetadataSrv (env : Env) (nb : Bool) (b : Nat)
    (pre key : Key) (w : World) : World × Except GoError Metadata :=
  let storageKeyMD := mdKeyOf pre key
  match executeR nb b (existsR env storageKeyMD) w with
  | (w1, .error e) => (w1, .error (.wrap "load: could not get existence of key" e))
  | (w1, .ok false) => (w1, .error (.notExist key))
  | (w1, .ok true) =>
    match executeOp nb b (getMDOp env storageKeyMD) { w := w1, buf := [], md := zeroMetadata } with
    | (s2, some e) => (s2.w, .error (.wrap "load: could not get metadata" e))
    | (s2, none) =>
      let m := s2.md
      let m' := if m.IsDir then { m with Path := trimPre m.Path (pre ++ ["md"]) } else m
      (s2.w, .ok m')

/-! ## The locking protocol (`src/unnamed/part_002` lines 96-191) -/

/-- The `acquire` closure of `(*etcdsrv).lock` (lines 106-164), one attempt:
read the lock node for `key`; absent, own, or expired locks allow writing a
fresh `{token, now}` record; an unexpired lock held by another token is an
"already exists" failure.  `now` is the sampled `time.Now().UTC()`. -/
def lockAcquire (env : Env) (pre : Key) (timeout : Int) (tok : String)
    (now : Time) (key : Key) : Op World := fun w =>
  let lockPath := lockKeyOf pre key
  let writeLock := fun (w1 : World) =>
    match cliSet env lockPath (.lk { Token := tok, Obtained := now, Key := key }) w1 with
    | (w2, none) => (w2, none)
    | (w2, some e) => (w2, some (.wrap "failed to get lock" e))
  match cliGet env lockPath false w with
  | (w1, .error e) =>
    if IsKeyNotFound e then writeLock w1
    else (w1, some (.wrap "lock: failed to get existing lock" e))
  | (w1, .ok (.leaf (.lk l))) =>
    if l.Token = tok then writeLock w1
    else if now - l.Obtained ≥ timeout then writeLock w1
    else (w1, some (.simple "lock: failed to obtain lock, already exists"))
  | (w1, .ok _) =>
    (w1, some (.wrap "lock: failed to unmarshal existing lock" (.simple "json: cannot unmarshal")))

/-- `(*etcdsrv).lock(tok, key)`: the acquire attempt run through `execute`
(exponential-backoff retry unless `noBackoff`). -/
def lockSrv (env : Env) (nb : Bool) (b : Nat) (pre : Key) (timeout : Int)
    (tok : String) (now : Time) (key : Key) (w : World) : World × Option GoError :=
  executeOp nb b (lockAcquire env pre timeout tok now key) w

/-! ## The error types (`src/unnamed/part_005`) -/

/-- `NotExist` is returned when a key lookup fails when calling Load or
Metadata. -/
structure NotExist where
  Key : String

/-- `func (e NotExist) Error() string`. -/
def NotExist.Error (e : NotExist) : String :=
  "key " ++ e.Key ++ " does not exist"

/-- `FailedChecksum` error is returned when the data returned by Load does
not match the SHA1 checksum stored in its metadata node. -/
structure FailedChecksum where
  Key : String

/-- `func (e FailedChecksum) Error() string`. -/
def FailedChecksum.Error (e : FailedChecksum) : String :=
  "key " ++ e.Key ++ " does not exist"

/-- A Go `error` interface value, as far as the two type tests can see. -/
inductive StorageErr where
  | notExist (e : NotExist)
  | failedChecksum (e : FailedChecksum)
  | other (msg : String)

/-- `IsNotExistError` checks to see if error is of type NotExist. -/
def IsNotExistError : StorageErr → Bool
  | .notExist _ => true
  | _ => false

/-- `IsFailedChecksumError` checks to see if error is of type FailedChecksum. -/
def IsFailedChecksumError : StorageErr → Bool
  | .failedChecksum _ => true
  | _ => false

/-! ## Derived notions used in the statements -/

/-- The bytes `get` would read at a key: the decoded leaf value, or nothing
for an absent key or a directory. -/
def dataBytesAt (A : Ambient) (t : ENode) (k : Key) : Bytes :=
  match getNode t k with
  | some (.leaf v) => valBytes A v
  | _ => []

/-- The metadata carried by a terminal (non-directory) flattened node;
directories carry none. -/
def termMD (n : CNode) : Option Metadata :=
  if n.dir then none
  else
    match n.value with
    | some (.md m) => some m
    | _ => none

/-! ## Concrete instances used by counterexamples and witnesses -/

/-- An arbitrary concrete choice for the opaque external functions. -/
def testAmbient : Ambient :=
  { sha1Sum := fun b => List.replicate 20 b.length
    jsonMD := fun m => [m.Size]
    jsonLK := fun _ => [9] }

/-- An empty keyspace (the root directory). -/
def emptyRoot : ENode := .dir .nil

/-- The store world after `Store("/f", "v1")` under prefix `/caddy` at time 5. -/
def storedV1World : World :=
  (StoreSrv testAmbient healthy true 0 0 ["caddy"] ["f"] [118, 49] 5
    { tree := emptyRoot, calls := [] }).1

/-- A failure schedule under which every `Set` of `/caddy/md/f` (the metadata
write of a store to `/f`) fails. -/
def mdSetFails : Env := fun r => r.kind == .set && r.key == ["caddy", "md", "f"]

/-- The second `Store("/f", "v22")`, executed while the metadata write fails. -/
def storeBugResult : World × Option GoError :=
  StoreSrv testAmbient mdSetFails true 0 0 ["caddy"] ["f"] [118, 50, 50] 7 storedV1World

/-- A world whose only content is a lock on `k` held by token `other`,
obtained at time 0. -/
def contendedWorld : World :=
  { tree := .dir (.cons "caddy" (.dir (.cons "lock" (.dir (.cons "k"
      (.leaf (.lk { Token := "other", Obtained := 0, Key := ["k"] })) .nil)) .nil)) .nil)
    calls := [] }

/-- Terminal entry `/a/x`: size 3, timestamp 4. -/
def mdAX : Metadata :=
  { Path := ["a", "x"], Size := 3, Timestamp := 4, Hash := zeroHash, IsDir := false }

/-- Terminal entry `/a/y`: size 5, timestamp 9. -/
def mdAY : Metadata :=
  { Path := ["a", "y"], Size := 5, Timestamp := 9, Hash := zeroHash, IsDir := false }

/-- The metadata subtree under `/caddy/md/a` holding the two terminal entries. -/
def dirChildren : EDir :=
  .cons "x" (.leaf (.md mdAX)) (.cons "y" (.leaf (.md mdAY)) .nil)

/-- A world holding only the two metadata entries under the directory `/a`. -/
def dirWorld : World :=
  { tree := .dir (.cons "caddy" (.dir (.cons "md" (.dir (.cons "a"
      (.dir dirChildren) .nil)) .nil)) .nil)
    calls := [] }

/-- Commit list for the pipeline instances: steps 0 and 2 succeed, step 1
always fails. -/
def sampleCommits : List (Op Nat) :=
  [fun s => (s + 1, none), fun s => (s, some (.simple "boom")), fun s => (s + 1, none)]

/-- A single successful rollback entry (shorter than the failed index). -/
def sampleRollbacksOk : List (Op Nat) :=
  [fun s => (s + 10, none)]

/-- A single always-failing rollback entry. -/
def sampleRollbacksBad : List (Op Nat) :=
  [fun s => (s, some (.simple "rollback boom"))]

/-! ## Small facts about retrying -/

theorem retryR_first_ok {σ α : Type} {o : ROp σ α} {s s' : σ} {a : α}
    (b : Nat) (h : o s = (s', .ok a)) : retryR b o s = (s', .ok a) := by
  cases b with
  | zero => simpa [retryR] using h
  | succ b => simp [retryR, h]

theorem retry_first_ok {σ : Type} {o : Op σ} {s s' : σ}
    (b : Nat) (h : o s = (s', none)) : retry b o s = (s', none) := by
  cases b with
  | zero => simpa [retry] using h
  | succ b => simp [retry, h]

theorem executeOp_first_ok {σ : Type} {o : Op σ} {s s' : σ}
    (nb : Bool) (b : Nat) (h : o s = (s', none)) : executeOp nb b o s = (s', none) := by
  cases nb with
  | true => simpa [executeOp] using h
  | false => simpa [executeOp] using retry_first_ok b h

theorem executeR_first_ok {σ α : Type} {o : ROp σ α} {s s' : σ} {a : α}
    (nb : Bool) (b : Nat) (h : o s = (s', .ok a)) : executeR nb b o s = (s', .ok a) := by
  cases nb with
  | true => simpa [executeR] using h
  | false => simpa [executeR] using retryR_first_ok b h

/-- C10: for every key, `FailedChecksum.Error()` produces exactly the string
"key … does not exist" — character-for-character the `NotExist` message, with
no mention of a checksum — so the two error kinds can be told apart only by
the `IsFailedChecksumError` / `IsNotExistError` type tests, never by text. -/
theorem failedchecksum_message_matches_notexist (k : String) :
    FailedChecksum.Error { Key := k } = NotExist.Error { Key := k } ∧
    FailedChecksum.Error { Key := k } = "key " ++ k ++ " does not exist" ∧
    IsFailedChecksumError (.failedChecksum { Key := k }) = true ∧
    IsNotExistError (.failedChecksum { Key := k }) = false ∧
    IsNotExistError (.notExist { Key := k }) = true ∧
    IsFailedChecksumError (.notExist { Key := k }) = false :=
  ⟨rfl, rfl, rfl, rfl, rfl, rfl⟩

/-- C8: when the subtree rooted at `k` does not exist, `list(k)` returns an
empty node sequence and no error (the nil response is caught before the
tree walk, so nothing is dereferenced). -/
theorem list_missing_subtree_empty (b : Nat) (k : Key) (w : World)
    (h : getNode w.tree k = none) :
    (listLL healthy b k w).2 = .ok [] := by
  cases b with
  | zero => simp [listLL, retryR, cliGet, healthy, h, IsKeyNotFound]
  | succ b => simp [listLL, retryR, cliGet, healthy, h, IsKeyNotFound]

theorem list_missing_subtree_empty_witness :
    (listLL healthy 0 ["caddy", "zzz"] { tree := emptyRoot, calls := [] }).2 = .ok [] :=
  list_missing_subtree_empty 0 ["caddy", "zzz"] { tree := emptyRoot, calls := [] } rfl

/-- C2 (code bug): on the second `Store("/f", "v22")` with the metadata write
failing, the executed rollback does **not** restore the data node to the
previously stored `"v1"`: the rollback closure captured `valPrev.Bytes()`
(and `*mdPrev`) when the rollback list was constructed — before the commit
that reads the previous value ran — so the data node is rolled back to the
empty byte string.  Here `[118, 49]` is `"v1"`: after the failing store the
data node holds `raw []` and not `raw [118, 49]`. -/
theorem store_rollback_writes_empty_value :
    storeBugResult.2.isSome = true ∧
    getNode storeBugResult.1.tree ["caddy", "f"] = some (.leaf (.raw [])) ∧
    getNode storeBugResult.1.tree ["caddy", "md", "f"] =
      some (.leaf (.md (NewMetadata testAmbient ["f"] [118, 49] 5))) :=
  ⟨rfl, rfl, rfl⟩

/-- C7 (counterexample): with the default configuration (`noBackoff` unset)
and a backoff policy granting one more attempt, a contended `Lock` issues the
lock read twice — the locking layer itself re-runs the acquisition — before
returning the already-locked error; the claim that the locking layer does
not retry would mean a single read. -/
theorem lock_contention_is_retried :
    (lockSrv healthy false 1 ["caddy"] 10 "me" 1 ["k"] contendedWorld).2 =
      some (.simple "lock: failed to obtain lock, already exists") ∧
    (lockSrv healthy false 1 ["caddy"] 10 "me" 1 ["k"] contendedWorld).1.calls.length = 2 :=
  ⟨rfl, rfl⟩

/-! ## The locking protocol -/

theorem lockAcquire_contended (pre : Key) (timeout : Int) (tok : String)
    (now : Time) (key : Key) (w : World) (l : LockRec)
    (hlock : getNode w.tree (lockKeyOf pre key) = some (.leaf (.lk l)))
    (htok : l.Token ≠ tok)
    (hage : now - l.Obtained < timeout) :
    lockAcquire healthy pre timeout tok now key w =
      ({ w with calls := w.calls ++ [⟨.get, lockKeyOf pre key, false⟩] },
        some (.simple "lock: failed to obtain lock, already exists")) := by
  simp [lockAcquire, cliGet, healthy, hlock, htok, not_le.mpr hage]

theorem retry_lockAcquire_contended (pre : Key) (timeout : Int) (tok : String)
    (now : Time) (key : Key) (b : Nat) (w : World) (l : LockRec)
    (hlock : getNode w.tree (lockKeyOf pre key) = some (.leaf (.lk l)))
    (htok : l.Token ≠ tok)
    (hage : now - l.Obtained < timeout) :
    retry b (lockAcquire healthy pre timeout tok now key) w =
      ({ w with calls := w.calls ++ List.replicate (b + 1) ⟨.get, lockKeyOf pre key, false⟩ },
        some (.simple "lock: failed to obtain lock, already exists")) := by
  induction b generalizing w with
  | zero =>
    simpa [retry] using lockAcquire_contended pre timeout tok now key w l hlock htok hage
  | succ b ih =>
    rw [retry, lockAcquire_contended pre timeout tok now key w l hlock htok hage]
    have h2 := ih { w with calls := w.calls ++ [⟨.get, lockKeyOf pre key, false⟩] } hlock
    simp only [List.append_assoc, List.singleton_append] at h2 ⊢
    rw [h2]
    simp [List.replicate_succ]

/-- C7 (as amended): under contention (a different token holds an unexpired
lock), the acquire attempt fails synchronously with the already-locked
error, but `lock` runs it through `execute`: with `noBackoff` unset (the
default) the locking layer itself retries the acquisition once per attempt
granted by the backoff policy (`b + 1` lock reads in total) before returning
the error; with `noBackoff` set there is exactly one attempt. -/
theorem lock_contention_backoff_behavior (pre : Key) (timeout : Int) (tok : String)
    (now : Time) (key : Key) (b : Nat) (w : World) (l : LockRec)
    (hlock : getNode w.tree (lockKeyOf pre key) = some (.leaf (.lk l)))
    (htok : l.Token ≠ tok)
    (hage : now - l.Obtained < timeout) :
    lockSrv healthy false b pre timeout tok now key w =
      ({ w with calls := w.calls ++ List.replicate (b + 1) ⟨.get, lockKeyOf pre key, false⟩ },
        some (.simple "lock: failed to obtain lock, already exists")) ∧
    lockSrv healthy true b pre timeout tok now key w =
      ({ w with calls := w.calls ++ [⟨.get, lockKeyOf pre key, false⟩] },
        some (.simple "lock: failed to obtain lock, already exists")) := by
  constructor
  · simpa [lockSrv, executeOp] using
      retry_lockAcquire_contended pre timeout tok now key b w l hlock htok hage
  · simpa [lockSrv, executeOp] using
      lockAcquire_contended pre timeout tok now key w l hlock htok hage

theorem lock_contention_backoff_behavior_witness :
    lockSrv healthy false 2 ["caddy"] 10 "me" 1 ["k"] contendedWorld =
      ({ contendedWorld with calls := List.replicate 3 ⟨.get, ["caddy", "lock", "k"], false⟩ },
        some (.simple "lock: failed to obtain lock, already exists")) ∧
    lockSrv healthy true 2 ["caddy"] 10 "me" 1 ["k"] contendedWorld =
      ({ contendedWorld with calls := [⟨.get, ["caddy", "lock", "k"], false⟩] },
        some (.simple "lock: failed to obtain lock, already exists")) := by
  have h := lock_contention_backoff_behavior ["caddy"] 10 "me" 1 ["k"] 2 contendedWorld
    { Token := "other", Obtained := 0, Key := ["k"] } rfl (by decide) (by decide)
  simpa [contendedWorld] using h

/-- C6: a single acquire attempt, as a function of the current lock state
for the key: absent → write `{token, now}` and succeed; held by the same
token → rewrite `{token, now}` (extend) and succeed; held by another token
with age strictly below the timeout → fail with the already-locked error and
leave the store unchanged; held by another token with age at least the
timeout → write `{token, now}` and succeed.  (The successful cases assume
the lock node is writable, which `cliSet` decides via `setLeaf`.) -/
theorem lock_acquire_cases (pre : Key) (timeout : Int) (tok : String)
    (now : Time) (key : Key) (w : World) :
    (∀ t', getNode w.tree (lockKeyOf pre key) = none →
      setLeaf (.lk { Token := tok, Obtained := now, Key := key }) (lockKeyOf pre key) w.tree = some t' →
      (lockAcquire healthy pre timeout tok now key w).2 = none ∧
      (lockAcquire healthy pre timeout tok now key w).1.tree = t') ∧
    (∀ l t', getNode w.tree (lockKeyOf pre key) = some (.leaf (.lk l)) →
      l.Token = tok →
      setLeaf (.lk { Token := tok, Obtained := now, Key := key }) (lockKeyOf pre key) w.tree = some t' →
      (lockAcquire healthy pre timeout tok now key w).2 = none ∧
      (lockAcquire healthy pre timeout tok now key w).1.tree = t') ∧
    (∀ l, getNode w.tree (lockKeyOf pre key) = some (.leaf (.lk l)) →
      l.Token ≠ tok → now - l.Obtained < timeout →
      (lockAcquire healthy pre timeout tok now key w).2 =
        some (.simple "lock: failed to obtain lock, already exists") ∧
      (lockAcquire healthy pre timeout tok now key w).1.tree = w.tree) ∧
    (∀ l t', getNode w.tree (lockKeyOf pre key) = some (.leaf (.lk l)) →
      l.Token ≠ tok → now - l.Obtained ≥ timeout →
      setLeaf (.lk { Token := tok, Obtained := now, Key := key }) (lockKeyOf pre key) w.tree = some t' →
      (lockAcquire healthy pre timeout tok now key w).2 = none ∧
      (lockAcquire healthy pre timeout tok now key w).1.tree = t') := by
  refine ⟨?_, ?_, ?_, ?_⟩
  · intro t' hget hset
    simp [lockAcquire, cliGet, cliSet, healthy, hget, hset, IsKeyNotFound]
  · intro l t' hget htok hset
    simp [lockAcquire, cliGet, cliSet, healthy, hget, htok, hset]
  · intro l hget htok hage
    simp [lockAcquire, cliGet, cliSet, healthy, hget, htok, not_le.mpr hage]
  · intro l t' hget htok hage hset
    simp [lockAcquire, cliGet, cliSet, healthy, hget, htok, hage, hset]

theorem lock_acquire_cases_witness :
    ((lockAcquire healthy ["caddy"] 10 "me" 1 ["k"] { tree := emptyRoot, calls := [] }).2 = none ∧
      (lockAcquire healthy ["caddy"] 10 "me" 1 ["k"] { tree := emptyRoot, calls := [] }).1.tree =
        .dir (.cons "caddy" (.dir (.cons "lock" (.dir (.cons "k"
          (.leaf (.lk { Token := "me", Obtained := 1, Key := ["k"] })) .nil)) .nil)) .nil)) ∧
    ((lockAcquire healthy ["caddy"] 10 "me" 4 ["k"]
        { tree := .dir (.cons "caddy" (.dir (.cons "lock" (.dir (.cons "k"
            (.leaf (.lk { Token := "me", Obtained := 1, Key := ["k"] })) .nil)) .nil)) .nil)
          calls := [] }).2 = none) ∧
    ((lockAcquire healthy ["caddy"] 10 "me" 1 ["k"] contendedWorld).2 =
      some (.simple "lock: failed to obtain lock, already exists") ∧
      (lockAcquire healthy ["caddy"] 10 "me" 1 ["k"] contendedWorld).1.tree = contendedWorld.tree) ∧
    ((lockAcquire healthy ["caddy"] 10 "me" 50 ["k"] contendedWorld).2 = none) := by
  refine ⟨?_, ?_, ?_, ?_⟩
  · exact (lock_acquire_cases ["caddy"] 10 "me" 1 ["k"] { tree := emptyRoot, calls := [] }).1
      _ rfl rfl
  · exact ((lock_acquire_cases ["caddy"] 10 "me" 4 ["k"]
      { tree := .dir (.cons "caddy" (.dir (.cons "lock" (.dir (.cons "k"
          (.leaf (.lk { Token := "me", Obtained := 1, Key := ["k"] })) .nil)) .nil)) .nil)
        calls := [] }).2.1
      { Token := "me", Obtained := 1, Key := ["k"] }
      (.dir (.cons "caddy" (.dir (.cons "lock" (.dir (.cons "k"
        (.leaf (.lk { Token := "me", Obtained := 4, Key := ["k"] })) .nil)) .nil)) .nil))
      rfl rfl rfl).1
  · exact (lock_acquire_cases ["caddy"] 10 "me" 1 ["k"] contendedWorld).2.2.1
      { Token := "other", Obtained := 0, Key := ["k"] } rfl (by decide) (by decide)
  · exact ((lock_acquire_cases ["caddy"] 10 "me" 50 ["k"] contendedWorld).2.2.2
      { Token := "other", Obtained := 0, Key := ["k"] }
      (.dir (.cons "caddy" (.dir (.cons "lock" (.dir (.cons "k"
        (.leaf (.lk { Token := "me", Obtained := 50, Key := ["k"] })) .nil)) .nil)) .nil))
      rfl (by decide) (by decide) rfl).1

/-! ## Characterizations of the raw operations against a healthy store -/

theorem existsR_healthy (k : Key) (w : World) :
    existsR healthy k w =
      ({ w with calls := w.calls ++ [⟨.get, k, false⟩] }, .ok (getNode w.tree k).isSome) := by
  cases h : getNode w.tree k <;> simp [existsR, cliGet, healthy, h, IsKeyNotFound]

theorem executeR_exists_healthy (nb : Bool) (b : Nat) (k : Key) (w : World) :
    executeR nb b (existsR healthy k) w =
      ({ w with calls := w.calls ++ [⟨.get, k, false⟩] }, .ok (getNode w.tree k).isSome) :=
  executeR_first_ok nb b (existsR_healthy k w)

theorem getOp_healthy (A : Ambient) (k : Key) (s : OpState) :
    getOp A healthy k s =
      ({ s with
          w := { s.w with calls := s.w.calls ++ [⟨.get, k, false⟩] }
          buf := s.buf ++ dataBytesAt A s.w.tree k }, none) := by
  cases h : getNode s.w.tree k with
  | none => simp [getOp, cliGet, healthy, h, IsKeyNotFound, dataBytesAt]
  | some n => cases n <;> simp [getOp, cliGet, healthy, h, dataBytesAt]

theorem getMDOp_leaf_md (k : Key) (m : Metadata) (s : OpState)
    (h : getNode s.w.tree k = some (.leaf (.md m))) :
    getMDOp healthy k s =
      ({ s with w := { s.w with calls := s.w.calls ++ [⟨.get, k, true⟩] }, md := m }, none) := by
  simp [getMDOp, cliGet, healthy, h, toCNode, unmarshalEVal]

theorem executeOp_getMDOp_leaf (nb : Bool) (b : Nat) (k : Key) (m : Metadata)
    (s : OpState) (h : getNode s.w.tree k = some (.leaf (.md m))) :
    executeOp nb b (getMDOp healthy k) s =
      ({ s with w := { s.w with calls := s.w.calls ++ [⟨.get, k, true⟩] }, md := m }, none) :=
  executeOp_first_ok nb b (getMDOp_leaf_md k m s h)

theorem executeOp_getOp_healthy (nb : Bool) (b : Nat) (A : Ambient) (k : Key)
    (s : OpState) :
    executeOp nb b (getOp A healthy k) s =
      ({ s with
          w := { s.w with calls := s.w.calls ++ [⟨.get, k, false⟩] }
          buf := s.buf ++ dataBytesAt A s.w.tree k }, none) :=
  executeOp_first_ok nb b (getOp_healthy A k s)

/-- C3: `Load(k)` fails with NotExist when no metadata node exists for `k`;
when a metadata record exists but the digest of the loaded data differs from
the recorded hash it fails with FailedChecksum; otherwise it returns the
stored data. -/
theorem load_error_cases (A : Ambient) (nb : Bool) (b : Nat) (pre key : Key) (w : World) :
    (getNode w.tree (mdKeyOf pre key) = none →
      (LoadSrv A healthy nb b pre key w).2 = .error (.notExist key)) ∧
    (∀ m, getNode w.tree (mdKeyOf pre key) = some (.leaf (.md m)) →
      A.sha1Sum (dataBytesAt A w.tree (dataKeyOf pre key)) ≠ m.Hash →
      (LoadSrv A healthy nb b pre key w).2 = .error (.failedChecksum key)) ∧
    (∀ m, getNode w.tree (mdKeyOf pre key) = some (.leaf (.md m)) →
      A.sha1Sum (dataBytesAt A w.tree (dataKeyOf pre key)) = m.Hash →
      (LoadSrv A healthy nb b pre key w).2 = .ok (dataBytesAt A w.tree (dataKeyOf pre key))) := by
  refine ⟨?_, ?_, ?_⟩
  · intro h
    simp [LoadSrv, executeR_exists_healthy, h]
  · intro m h hne
    simp only [LoadSrv, executeR_exists_healthy, h, Option.isSome_some,
      executeOp_getOp_healthy]
    rw [executeOp_getMDOp_leaf nb b (mdKeyOf pre key) m
      ⟨⟨w.tree, w.calls ++ [Req.mk ReqKind.get (mdKeyOf pre key) false]⟩, [], zeroMetadata⟩ h]
    simp [hne]
  · intro m h heq
    simp only [LoadSrv, executeR_exists_healthy, h, Option.isSome_some,
      executeOp_getOp_healthy]
    rw [executeOp_getMDOp_leaf nb b (mdKeyOf pre key) m
      ⟨⟨w.tree, w.calls ++ [Req.mk ReqKind.get (mdKeyOf pre key) false]⟩, [], zeroMetadata⟩ h]
    simp [heq]

theorem load_error_cases_witness :
    ((LoadSrv testAmbient healthy true 0 ["caddy"] ["g"]
        { tree := emptyRoot, calls := [] }).2 = .error (.notExist ["g"])) ∧
    ((LoadSrv testAmbient healthy true 0 ["caddy"] ["f"]
        { tree := .dir (.cons "caddy" (.dir (.cons "f" (.leaf (.raw [118, 49]))
            (.cons "md" (.dir (.cons "f" (.leaf (.md zeroMetadata)) .nil)) .nil))) .nil)
          calls := [] }).2 = .error (.failedChecksum ["f"])) ∧
    ((LoadSrv testAmbient healthy true 0 ["caddy"] ["f"] storedV1World).2 = .ok [118, 49]) := by
  refine ⟨?_, ?_, ?_⟩
  · exact (load_error_cases testAmbient true 0 ["caddy"] ["g"]
      { tree := emptyRoot, calls := [] }).1 rfl
  · exact (load_error_cases testAmbient true 0 ["caddy"] ["f"]
      { tree := .dir (.cons "caddy" (.dir (.cons "f" (.leaf (.raw [118, 49]))
          (.cons "md" (.dir (.cons "f" (.leaf (.md zeroMetadata)) .nil)) .nil))) .nil)
        calls := [] }).2.1 zeroMetadata rfl (by decide)
  · exact ((load_error_cases testAmbient true 0 ["caddy"] ["f"] storedV1World).2.2
      (NewMetadata testAmbient ["f"] [118, 49] 5) rfl rfl).trans rfl

/-! ## The transaction pipeline: instrumented execution -/

theorem retry_instr_ok {σ : Type} (o : Op σ) (ev : Ev) (b : Nat) (s : σ) (l : List Ev)
    (h : (o s).2 = none) :
    retry b (instr ev o) (s, l) = (((o s).1, l ++ [ev]), none) :=
  retry_first_ok b (by simp [instr, h])

theorem retry_instr_persistent_fail {σ : Type} (o : Op σ) (ev : Ev) (er : GoError)
    (h : ∀ s₁, o s₁ = (s₁, some er)) :
    ∀ (b : Nat) (s : σ) (l : List Ev),
    retry b (instr ev o) (s, l) = ((s, l ++ List.replicate (b + 1) ev), some er) := by
  intro b
  induction b with
  | zero => intro s l; simp [retry, instr, h s]
  | succ b ih =>
    intro s l
    have hi : instr ev o (s, l) = ((s, l ++ [ev]), some er) := by simp [instr, h s]
    simp only [retry, hi]
    rw [ih s (l ++ [ev])]
    simp [List.replicate_succ]

theorem instrList_length {σ : Type} (tag : Nat → Ev) :
    ∀ (i : Nat) (os : List (Op σ)), (instrList tag i os).length = os.length := by
  intro i os
  induction os generalizing i with
  | nil => rfl
  | cons o os ih => simp [instrList, ih]

theorem instrList_get {σ : Type} (tag : Nat → Ev) :
    ∀ (os : List (Op σ)) (i j : Nat) (hj : j < os.length),
    (instrList tag i os).get ⟨j, by rw [instrList_length]; exact hj⟩ =
      instr (tag (i + j)) (os.get ⟨j, hj⟩) := by
  intro os
  induction os with
  | nil => intro i j hj; exact absurd hj (by simp)
  | cons o os ih =>
    intro i j hj
    cases j with
    | zero => rfl
    | succ j =>
      have hj' : j < os.length := Nat.lt_of_succ_lt_succ hj
      have step : (instrList tag i (o :: os)).get
          ⟨j + 1, by rw [instrList_length]; exact hj⟩ =
          (instrList tag (i + 1) os).get ⟨j, by rw [instrList_length]; exact hj'⟩ := rfl
      rw [step, ih (i + 1) j hj']
      have harith : i + 1 + j = i + (j + 1) := by omega
      rw [harith]
      rfl

theorem rollbackFrom_instr_ok {σ : Type} (RB : List (Op σ)) (b : Nat)
    (hrb : ∀ j (hj : j < RB.length) s₁, ((RB.get ⟨j, hj⟩) s₁).2 = none) :
    ∀ (n : Nat) (s : σ) (l : List Ev) (e : GoError),
    ∃ s', rollbackFrom (instrList Ev.rollback 0 RB) b n (s, l) e =
      ((s', l ++ (List.range (min n RB.length)).reverse.map Ev.rollback), e) := by
  intro n
  induction n with
  | zero =>
    intro s l e
    exact ⟨s, by simp [rollbackFrom]⟩
  | succ n ih =>
    intro s l e
    by_cases hn : n < RB.length
    · have hn' : n < (instrList Ev.rollback 0 RB).length := by
        rw [instrList_length]; exact hn
      have hget := instrList_get Ev.rollback RB 0 n hn
      simp only [rollbackFrom, dif_pos hn']
      rw [hget]
      rw [retry_instr_ok (RB.get ⟨n, hn⟩) (Ev.rollback (0 + n)) b s l (hrb n hn s)]
      obtain ⟨s', hs'⟩ := ih ((RB.get ⟨n, hn⟩) s).1 (l ++ [Ev.rollback (0 + n)]) e
      refine ⟨s', ?_⟩
      show rollbackFrom (instrList Ev.rollback 0 RB) b n
        ((RB.get ⟨n, hn⟩ s).1, l ++ [Ev.rollback (0 + n)]) e =
        ((s', l ++ (List.range (min (n + 1) RB.length)).reverse.map Ev.rollback), e)
      rw [hs']
      have h1 : min (n + 1) RB.length = n + 1 := Nat.min_eq_left (Nat.succ_le_of_lt hn)
      have h2 : min n RB.length = n := Nat.min_eq_left (Nat.le_of_lt hn)
      rw [h1, h2, List.range_succ]
      simp
    · have hn' : ¬ n < (instrList Ev.rollback 0 RB).length := by
        rw [instrList_length]; exact hn
      simp only [rollbackFrom, dif_neg hn']
      obtain ⟨s', hs'⟩ := ih s l e
      refine ⟨s', ?_⟩
      rw [hs']
      have h1 : min (n + 1) RB.length = min n RB.length := by omega
      rw [h1]

theorem rollbackFrom_instr_mixed {σ : Type} (RB : List (Op σ)) (b : Nat)
    (rok : Nat → Bool) (re : Nat → GoError)
    (hrb : ∀ j (hj : j < RB.length),
      (rok j = true → ∀ s₁, ((RB.get ⟨j, hj⟩) s₁).2 = none) ∧
      (rok j = false → ∀ s₁, (RB.get ⟨j, hj⟩) s₁ = (s₁, some (re j)))) :
    ∀ (n : Nat) (s : σ) (l : List Ev) (e : GoError),
    ∃ s', rollbackFrom (instrList Ev.rollback 0 RB) b n (s, l) e =
      ((s', l ++ (List.range (min n RB.length)).reverse.flatMap
          (fun j => if rok j then [Ev.rollback j] else List.replicate (b + 1) (Ev.rollback j))),
        ((List.range (min n RB.length)).filter (fun j => !rok j)).foldr
          (fun j acc => .wrap ("error on rollback: " ++ (re j).render) acc) e) := by
  intro n
  induction n with
  | zero =>
    intro s l e
    exact ⟨s, by simp [rollbackFrom]⟩
  | succ n ih =>
    intro s l e
    by_cases hn : n < RB.length
    · have hn' : n < (instrList Ev.rollback 0 RB).length := by
        rw [instrList_length]; exact hn
      have hget := instrList_get Ev.rollback RB 0 n hn
      have h1 : min (n + 1) RB.length = n + 1 := Nat.min_eq_left (Nat.succ_le_of_lt hn)
      have h2 : min n RB.length = n := Nat.min_eq_left (Nat.le_of_lt hn)
      simp only [rollbackFrom, dif_pos hn']
      rw [hget]
      cases hok : rok n with
      | true =>
        rw [retry_instr_ok (RB.get ⟨n, hn⟩) (Ev.rollback (0 + n)) b s l
          ((hrb n hn).1 hok s)]
        obtain ⟨s', hs'⟩ := ih ((RB.get ⟨n, hn⟩) s).1 (l ++ [Ev.rollback (0 + n)]) e
        refine ⟨s', ?_⟩
        show rollbackFrom (instrList Ev.rollback 0 RB) b n
          ((RB.get ⟨n, hn⟩ s).1, l ++ [Ev.rollback (0 + n)]) e = _
        rw [hs', h1, h2, List.range_succ]
        simp [hok, List.filter_append]
      | false =>
        rw [retry_instr_persistent_fail (RB.get ⟨n, hn⟩) (Ev.rollback (0 + n)) (re n)
          ((hrb n hn).2 hok) b s l]
        obtain ⟨s', hs'⟩ := ih s (l ++ List.replicate (b + 1) (Ev.rollback (0 + n)))
          (.wrap ("error on rollback: " ++ (re n).render) e)
        refine ⟨s', ?_⟩
        show rollbackFrom (instrList Ev.rollback 0 RB) b n
          (s, l ++ List.replicate (b + 1) (Ev.rollback (0 + n)))
          (.wrap ("error on rollback: " ++ (re n).render) e) = _
        rw [hs', h1, h2, List.range_succ]
        simp [hok, List.filter_append, List.foldr_append]
    · have hn' : ¬ n < (instrList Ev.rollback 0 RB).length := by
        rw [instrList_length]; exact hn
      simp only [rollbackFrom, dif_neg hn']
      obtain ⟨s', hs'⟩ := ih s l e
      refine ⟨s', ?_⟩
      rw [hs']
      have h1 : min (n + 1) RB.length = min n RB.length := by omega
      rw [h1]

theorem pipelineAux_instr_ok {σ : Type} (RBI : List (Op (σ × List Ev))) (b : Nat) :
    ∀ (cs : List (Op σ)) (idx : Nat) (s : σ) (l : List Ev),
    (∀ j (hj : j < cs.length) s₁, ((cs.get ⟨j, hj⟩) s₁).2 = none) →
    ∃ s', pipelineAux RBI b (instrList Ev.commit idx cs) idx (s, l) =
      ((s', l ++ (List.range' idx cs.length).map Ev.commit), none) := by
  intro cs
  induction cs with
  | nil =>
    intro idx s l _
    exact ⟨s, by simp [instrList, pipelineAux]⟩
  | cons c cs ih =>
    intro idx s l hok
    simp only [instrList, pipelineAux]
    rw [retry_instr_ok c (Ev.commit idx) b s l (hok 0 (by simp) s)]
    obtain ⟨s', hs'⟩ := ih (idx + 1) ((c s).1) (l ++ [Ev.commit idx])
      (fun j hj s₁ => hok (j + 1) (by simpa using Nat.succ_lt_succ hj) s₁)
    refine ⟨s', ?_⟩
    show pipelineAux RBI b (instrList Ev.commit (idx + 1) cs) (idx + 1)
      ((c s).1, l ++ [Ev.commit idx]) = _
    rw [hs']
    simp [List.range'_succ]

theorem pipelineAux_instr_fail {σ : Type} (RBI : List (Op (σ × List Ev))) (b : Nat)
    (e : GoError) :
    ∀ (i : Nat) (cs : List (Op σ)) (idx : Nat) (s : σ) (l : List Ev)
    (hi : i < cs.length),
    (∀ j (hj : j < i) s₁, ((cs.get ⟨j, Nat.lt_trans hj hi⟩) s₁).2 = none) →
    (∀ s₁, (cs.get ⟨i, hi⟩) s₁ = (s₁, some e)) →
    ∃ s', pipelineAux RBI b (instrList Ev.commit idx cs) idx (s, l) =
      ((rollbackFrom RBI b (idx + i)
          (s', l ++ (List.range' idx i).map Ev.commit
            ++ List.replicate (b + 1) (Ev.commit (idx + i))) e).1,
        some (rollbackFrom RBI b (idx + i)
          (s', l ++ (List.range' idx i).map Ev.commit
            ++ List.replicate (b + 1) (Ev.commit (idx + i))) e).2) := by
  intro i
  induction i with
  | zero =>
    intro cs idx s l hi hpre hfail
    cases cs with
    | nil => exact absurd hi (by simp)
    | cons c cs =>
      refine ⟨s, ?_⟩
      simp only [instrList, pipelineAux]
      rw [retry_instr_persistent_fail c (Ev.commit idx) e hfail b s l]
      simp
  | succ i ih =>
    intro cs idx s l hi hpre hfail
    cases cs with
    | nil => exact absurd hi (by simp)
    | cons c cs =>
      simp only [instrList, pipelineAux]
      rw [retry_instr_ok c (Ev.commit idx) b s l (hpre 0 (Nat.succ_pos i) s)]
      obtain ⟨s', hs'⟩ := ih cs (idx + 1) ((c s).1) (l ++ [Ev.commit idx])
        (Nat.lt_of_succ_lt_succ hi)
        (fun j hj s₁ => hpre (j + 1) (Nat.succ_lt_succ hj) s₁)
        (fun s₁ => hfail s₁)
      have harith : idx + 1 + i = idx + (i + 1) := by omega
      rw [harith] at hs'
      refine ⟨s', ?_⟩
      show pipelineAux RBI b (instrList Ev.commit (idx + 1) cs) (idx + 1)
        ((c s).1, l ++ [Ev.commit idx]) = _
      rw [hs']
      have hlog : l ++ [Ev.commit idx] ++ (List.range' (idx + 1) i).map Ev.commit =
          l ++ (List.range' idx (i + 1)).map Ev.commit := by
        rw [List.range'_succ]
        simp
      rw [hlog]

/-- C4: with execution instrumented by an event log — if commit `i` is the
first commit to fail (earlier commits succeed, commit `i` fails on every
attempt), the pipeline executes commits `0..i-1` once each, retries commit
`i`, never executes any later commit, and then executes exactly the rollback
entries for indices `min i |rollbacks| - 1` down to `0` in strictly
descending order (indices at or beyond the rollback list's length are
silently skipped, shortening the executed range without an error), returning
the commit failure; and if every commit succeeds the pipeline executes the
commits in order, runs no rollback, and returns nil. -/
theorem pipeline_commit_and_rollback_order (σ : Type) :
    (∀ (commits rollbacks : List (Op σ)) (b i : Nat) (e : GoError) (s : σ)
      (hi : i < commits.length),
      (∀ j (hj : j < i) s₁, ((commits.get ⟨j, Nat.lt_trans hj hi⟩) s₁).2 = none) →
      (∀ s₁, (commits.get ⟨i, hi⟩) s₁ = (s₁, some e)) →
      (∀ j (hj : j < rollbacks.length) s₁, ((rollbacks.get ⟨j, hj⟩) s₁).2 = none) →
      (pipeline (instrList Ev.commit 0 commits) (instrList Ev.rollback 0 rollbacks)
          b (s, [])).1.2 =
        (List.range i).map Ev.commit ++ List.replicate (b + 1) (Ev.commit i)
          ++ (List.range (min i rollbacks.length)).reverse.map Ev.rollback ∧
      (pipeline (instrList Ev.commit 0 commits) (instrList Ev.rollback 0 rollbacks)
          b (s, [])).2 = some e) ∧
    (∀ (commits rollbacks : List (Op σ)) (b : Nat) (s : σ),
      (∀ j (hj : j < commits.length) s₁, ((commits.get ⟨j, hj⟩) s₁).2 = none) →
      (pipeline (instrList Ev.commit 0 commits) (instrList Ev.rollback 0 rollbacks)
          b (s, [])).1.2 = (List.range commits.length).map Ev.commit ∧
      (pipeline (instrList Ev.commit 0 commits) (instrList Ev.rollback 0 rollbacks)
          b (s, [])).2 = none) := by
  constructor
  · intro commits rollbacks b i e s hi hpre hfail hrb
    obtain ⟨s', hs'⟩ := pipelineAux_instr_fail (instrList Ev.rollback 0 rollbacks)
      b e i commits 0 s [] hi hpre hfail
    obtain ⟨s'', hs''⟩ := rollbackFrom_instr_ok rollbacks b hrb (0 + i) s'
      ([] ++ (List.range' 0 i).map Ev.commit ++ List.replicate (b + 1) (Ev.commit (0 + i))) e
    rw [pipeline, hs', hs'']
    exact ⟨by simp [List.range_eq_range'], rfl⟩
  · intro commits rollbacks b s hok
    obtain ⟨s', hs'⟩ := pipelineAux_instr_ok (instrList Ev.rollback 0 rollbacks)
      b commits 0 s [] hok
    rw [pipeline, hs']
    exact ⟨by simp [List.range_eq_range'], rfl⟩

/-- C5: with execution instrumented by an event log — when the pipeline
unwinds after commit `i` fails, every available rollback entry is still
executed even if some rollbacks fail (`rok j` says whether rollback `j`
succeeds), and the returned error wraps the original commit failure `e` with
one "error on rollback: …" context per failing rollback, so no rollback
failure is dropped. -/
theorem pipeline_rollback_failure_aggregation (σ : Type)
    (commits rollbacks : List (Op σ)) (b i : Nat) (e : GoError) (s : σ)
    (rok : Nat → Bool) (re : Nat → GoError)
    (hi : i < commits.length)
    (hpre : ∀ j (hj : j < i) s₁, ((commits.get ⟨j, Nat.lt_trans hj hi⟩) s₁).2 = none)
    (hfail : ∀ s₁, (commits.get ⟨i, hi⟩) s₁ = (s₁, some e))
    (hrb : ∀ j (hj : j < rollbacks.length),
      (rok j = true → ∀ s₁, ((rollbacks.get ⟨j, hj⟩) s₁).2 = none) ∧
      (rok j = false → ∀ s₁, (rollbacks.get ⟨j, hj⟩) s₁ = (s₁, some (re j)))) :
    (pipeline (instrList Ev.commit 0 commits) (instrList Ev.rollback 0 rollbacks)
        b (s, [])).1.2 =
      (List.range i).map Ev.commit ++ List.replicate (b + 1) (Ev.commit i)
        ++ (List.range (min i rollbacks.length)).reverse.flatMap
            (fun j => if rok j then [Ev.rollback j]
              else List.replicate (b + 1) (Ev.rollback j)) ∧
    (pipeline (instrList Ev.commit 0 commits) (instrList Ev.rollback 0 rollbacks)
        b (s, [])).2 =
      some (((List.range (min i rollbacks.length)).filter (fun j => !rok j)).foldr
        (fun j acc => .wrap ("error on rollback: " ++ (re j).render) acc) e) := by
  obtain ⟨s', hs'⟩ := pipelineAux_instr_fail (instrList Ev.rollback 0 rollbacks)
    b e i commits 0 s [] hi hpre hfail
  obtain ⟨s'', hs''⟩ := rollbackFrom_instr_mixed rollbacks b rok re hrb (0 + i) s'
    ([] ++ (List.range' 0 i).map Ev.commit ++ List.replicate (b + 1) (Ev.commit (0 + i))) e
  rw [pipeline, hs', hs'']
  exact ⟨by simp [List.range_eq_range'], by simp⟩

theorem pipeline_commit_and_rollback_order_witness :
    ((pipeline (instrList Ev.commit 0 sampleCommits)
        (instrList Ev.rollback 0 sampleRollbacksOk) 1 ((0 : Nat), [])).1.2 =
      [Ev.commit 0, Ev.commit 1, Ev.commit 1, Ev.rollback 0] ∧
    (pipeline (instrList Ev.commit 0 sampleCommits)
        (instrList Ev.rollback 0 sampleRollbacksOk) 1 ((0 : Nat), [])).2 =
      some (.simple "boom")) ∧
    ((pipeline (instrList Ev.commit 0 sampleRollbacksOk)
        (instrList Ev.rollback 0 sampleRollbacksOk) 1 ((0 : Nat), [])).1.2 =
      [Ev.commit 0] ∧
    (pipeline (instrList Ev.commit 0 sampleRollbacksOk)
        (instrList Ev.rollback 0 sampleRollbacksOk) 1 ((0 : Nat), [])).2 = none) := by
  constructor
  · have h := (pipeline_commit_and_rollback_order Nat).1 sampleCommits sampleRollbacksOk
      1 1 (.simple "boom") 0 (by decide)
      (by
        intro j hj s₁
        have hj0 : j = 0 := by omega
        subst hj0; rfl)
      (fun s₁ => rfl)
      (by
        intro j hj s₁
        have hj0 : j = 0 := by simp [sampleRollbacksOk] at hj; omega
        subst hj0; rfl)
    exact ⟨h.1.trans rfl, h.2⟩
  · have h := (pipeline_commit_and_rollback_order Nat).2 sampleRollbacksOk sampleRollbacksOk
      1 0 (by
        intro j hj s₁
        have hj0 : j = 0 := by simp [sampleRollbacksOk] at hj; omega
        subst hj0; rfl)
    exact ⟨h.1.trans rfl, h.2⟩

theorem pipeline_rollback_failure_aggregation_witness :
    (pipeline (instrList Ev.commit 0 sampleCommits)
        (instrList Ev.rollback 0 sampleRollbacksBad) 0 ((0 : Nat), [])).1.2 =
      [Ev.commit 0, Ev.commit 1, Ev.rollback 0] ∧
    (pipeline (instrList Ev.commit 0 sampleCommits)
        (instrList Ev.rollback 0 sampleRollbacksBad) 0 ((0 : Nat), [])).2 =
      some (.wrap "error on rollback: rollback boom" (.simple "boom")) := by
  have h := pipeline_rollback_failure_aggregation Nat sampleCommits sampleRollbacksBad
    0 1 (.simple "boom") 0 (fun _ => false) (fun _ => .simple "rollback boom")
    (by decide)
    (by
        intro j hj s₁
        have hj0 : j = 0 := by omega
        subst hj0; rfl)
    (fun s₁ => rfl)
    (by
      intro j hj
      have hj0 : j = 0 := by simp [sampleRollbacksBad] at hj; omega
      subst hj0
      exact ⟨fun hcon _ => by simp at hcon, fun _ s₁ => rfl⟩)
  exact ⟨h.1.trans rfl, h.2.trans rfl⟩

/-! ## Directory metadata aggregation -/

theorem ite_gt_eq_max (a b : Time) : (if b > a then b else a) = max a b := by
  rcases le_or_lt b a with h | h
  · simp [not_lt.mpr h, max_eq_left h]
  · simp [h, max_eq_right (le_of_lt h)]

theorem init_le_foldl_max (l : List Time) : ∀ init, init ≤ l.foldl max init := by
  induction l with
  | nil => simp
  | cons x xs ih => exact fun init => le_trans (le_max_left init x) (ih (max init x))

theorem le_foldl_max (l : List Time) : ∀ (init : Time) (a : Time), a ∈ l → a ≤ l.foldl max init := by
  induction l with
  | nil => simp
  | cons x xs ih =>
    intro init a ha
    rcases List.mem_cons.mp ha with h | h
    · subst h
      exact le_trans (le_max_right init a) (init_le_foldl_max xs (max init a))
    · exact ih (max init x) a h

theorem aggregateMD_spec :
    ∀ (ns : List CNode) (m0 : Metadata),
    (∀ n ∈ ns, n.dir = false → ∃ m, n.value = some (.md m)) →
    aggregateMD ns m0 =
      ({ m0 with
          Size := m0.Size + ((ns.filterMap termMD).map (·.Size)).sum
          Timestamp := ((ns.filterMap termMD).map (·.Timestamp)).foldl max m0.Timestamp },
        none) := by
  intro ns
  induction ns with
  | nil => intro m0 _; simp [aggregateMD]
  | cons n rest ih =>
    intro m0 h
    cases hd : n.dir with
    | true =>
      have ht : termMD n = none := by simp [termMD, hd]
      simp only [aggregateMD, hd, if_pos]
      rw [ih m0 (fun x hx => h x (List.mem_cons_of_mem n hx))]
      simp [List.filterMap_cons, ht]
    | false =>
      obtain ⟨m, hm⟩ := h n (List.mem_cons_self n rest) hd
      have ht : termMD n = some m := by simp [termMD, hd, hm]
      have hb : n.value.bind unmarshalEVal = some m := by simp [hm, unmarshalEVal]
      simp only [aggregateMD, hd, Bool.false_eq_true, if_false, hb]
      rw [ih _ (fun x hx => h x (List.mem_cons_of_mem n hx))]
      rw [ite_gt_eq_max]
      simp only [List.filterMap_cons, ht, List.map_cons, List.sum_cons, List.foldl_cons]
      congr 1
      simp [Nat.add_assoc]

theorem isPrefixOf_self_append (x y : List String) : x.isPrefixOf (x ++ y) = true := by
  induction x with
  | nil => simp [List.isPrefixOf]
  | cons a x ih => simp [List.isPrefixOf, ih]

theorem trimPre_append (x y : Key) : trimPre (x ++ y) x = y := by
  simp [trimPre, isPrefixOf_self_append, List.drop_left]

theorem getMDOp_dir (k : Key) (cs : EDir) (s : OpState)
    (h : getNode s.w.tree k = some (.dir cs))
    (hterm : ∀ n ∈ walkNodes (toCNode k (.dir cs)), n.dir = false →
      ∃ m, n.value = some (.md m)) :
    getMDOp healthy k s =
      ({ s with
          w := { s.w with calls := s.w.calls ++ [⟨.get, k, true⟩] }
          md := { s.md with
            Path := k
            IsDir := true
            Size := s.md.Size
              + (((walkNodes (toCNode k (.dir cs))).filterMap termMD).map (·.Size)).sum
            Timestamp := (((walkNodes (toCNode k (.dir cs))).filterMap termMD).map
              (·.Timestamp)).foldl max s.md.Timestamp } }, none) := by
  have hterm' : ∀ n ∈ walkNodes (.mk k none true (toCNodes k cs)), n.dir = false →
      ∃ m, n.value = some (.md m) := by
    simpa [toCNode] using hterm
  simp only [getMDOp, cliGet, healthy, h, toCNode, Bool.false_eq_true, if_false]
  rw [aggregateMD_spec (walkNodes (.mk k none true (toCNodes k cs)))
    { Path := k, Size := s.md.Size, Timestamp := s.md.Timestamp, Hash := s.md.Hash,
      IsDir := true } hterm']

/-- C9: for a directory key `d` whose metadata key resolves to a subtree,
`Metadata(d)` synthesizes a record whose Size is the sum of the sizes of all
terminal (non-directory) descendant metadata records, whose Timestamp is the
fold of `max` over their timestamps starting from the zero time (so it is
their maximum, and every terminal's timestamp is bounded by it), with the
directory flag set, the hash left at its zero value, the path trimmed back
to `d`, and intermediate directory nodes contributing nothing. -/
theorem metadata_directory_aggregation (nb : Bool) (b : Nat) (pre d : Key)
    (w : World) (cs : EDir)
    (hdir : getNode w.tree (mdKeyOf pre d) = some (.dir cs))
    (hterm : ∀ n ∈ walkNodes (toCNode (mdKeyOf pre d) (.dir cs)), n.dir = false →
      ∃ m, n.value = some (.md m)) :
    (MetadataSrv healthy nb b pre d w).2 = .ok
      { Path := d
        Size := (((walkNodes (toCNode (mdKeyOf pre d) (.dir cs))).filterMap
          termMD).map (·.Size)).sum
        Timestamp := (((walkNodes (toCNode (mdKeyOf pre d) (.dir cs))).filterMap
          termMD).map (·.Timestamp)).foldl max 0
        Hash := zeroHash
        IsDir := true } ∧
    ∀ m1 ∈ (walkNodes (toCNode (mdKeyOf pre d) (.dir cs))).filterMap termMD,
      m1.Timestamp ≤ (((walkNodes (toCNode (mdKeyOf pre d) (.dir cs))).filterMap
        termMD).map (·.Timestamp)).foldl max 0 := by
  constructor
  · simp only [MetadataSrv, executeR_exists_healthy, hdir, Option.isSome_some]
    rw [executeOp_first_ok nb b (getMDOp_dir (mdKeyOf pre d) cs
      ⟨⟨w.tree, w.calls ++ [Req.mk ReqKind.get (mdKeyOf pre d) false]⟩, [], zeroMetadata⟩
      hdir hterm)]
    have htrim : trimPre (pre ++ "md" :: d) (pre ++ ["md"]) = d := by
      simpa using trimPre_append (pre ++ ["md"]) d
    simp [zeroMetadata, mdKeyOf, htrim]
  · intro m1 hm1
    exact le_foldl_max _ 0 _ (List.mem_map_of_mem _ hm1)

theorem metadata_directory_aggregation_witness :
    (MetadataSrv healthy true 0 ["caddy"] ["a"] dirWorld).2 = .ok
      { Path := ["a"], Size := 8, Timestamp := 9, Hash := zeroHash, IsDir := true } := by
  have hterm : ∀ n ∈ walkNodes (toCNode (mdKeyOf ["caddy"] ["a"]) (.dir dirChildren)),
      n.dir = false → ∃ m, n.value = some (.md m) := by
    have hlist : walkNodes (toCNode (mdKeyOf ["caddy"] ["a"]) (.dir dirChildren)) =
        [CNode.mk ["caddy", "md", "a"] none true
          (.cons (CNode.mk ["caddy", "md", "a", "x"] (some (.md mdAX)) false .nil)
            (.cons (CNode.mk ["caddy", "md", "a", "y"] (some (.md mdAY)) false .nil) .nil)),
         CNode.mk ["caddy", "md", "a", "x"] (some (.md mdAX)) false .nil,
         CNode.mk ["caddy", "md", "a", "y"] (some (.md mdAY)) false .nil] := rfl
    rw [hlist]
    intro n hn hd
    simp only [List.mem_cons, List.not_mem_nil, or_false] at hn
    rcases hn with rfl | rfl | rfl
    · simp [CNode.dir] at hd
    · exact ⟨mdAX, rfl⟩
    · exact ⟨mdAY, rfl⟩
  have h := (metadata_directory_aggregation true 0 ["caddy"] ["a"] dirWorld
    dirChildren rfl hterm).1
  exact h.trans (by rfl)

/-! ## Reading back after writing in the keyspace -/

theorem lookup_replace_same (s : String) (n' : ENode) :
    ∀ (cs : EDir) (n : ENode), lookupChild s cs = some n →
    lookupChild s (replaceChild s n' cs) = some n'
  | .nil, n, h => by simp [lookupChild] at h
  | .cons name node rest, n, h => by
    by_cases hs : name = s
    · simp [replaceChild, hs, lookupChild]
    · simp only [lookupChild, if_neg hs] at h
      simp only [replaceChild, if_neg hs, lookupChild, if_neg hs]
      exact lookup_replace_same s n' rest n h

theorem lookup_replace_other (s s1 : String) (n' : ENode) (hne : s1 ≠ s) :
    ∀ cs, lookupChild s1 (replaceChild s n' cs) = lookupChild s1 cs
  | .nil => rfl
  | .cons name node rest => by
    by_cases hs : name = s
    · subst hs
      have hns1 : ¬ name = s1 := fun hc => hne (hc ▸ rfl)
      simp [replaceChild, lookupChild, hns1]
    · by_cases h1 : name = s1
      · subst h1
        have hns : ¬ name = s := hs
        simp [replaceChild, lookupChild, hns]
      · simp [replaceChild, hs, lookupChild, h1,
          lookup_replace_other s s1 n' hne rest]

theorem lookup_append_same (s : String) (x : ENode) :
    ∀ cs, lookupChild s cs = none → lookupChild s (appendChild cs s x) = some x
  | .nil, _ => by simp [appendChild, lookupChild]
  | .cons name node rest, h => by
    by_cases hs : name = s
    · simp [lookupChild, hs] at h
    · simp only [lookupChild, if_neg hs] at h
      simp only [appendChild, lookupChild, if_neg hs]
      exact lookup_append_same s x rest h

theorem lookup_append_other (s s1 : String) (x : ENode) (hne : s1 ≠ s) :
    ∀ cs, lookupChild s1 (appendChild cs s x) = lookupChild s1 cs
  | .nil => by
    have hns1 : ¬ s = s1 := fun hc => hne hc.symm
    simp [appendChild, lookupChild, hns1]
  | .cons name node rest => by
    by_cases h1 : name = s1 <;>
      simp [appendChild, lookupChild, h1, lookup_append_other s s1 x hne rest]

theorem getNode_freshPath (v : EVal) : ∀ k, getNode (freshPath v k) k = some (.leaf v) := by
  intro k
  induction k with
  | nil => rfl
  | cons s rest ih => simp [freshPath, getNode, lookupChild, ih]

theorem getNode_setLeaf_self (v : EVal) :
    ∀ (k : Key) (t t' : ENode), setLeaf v k t = some t' →
    getNode t' k = some (.leaf v) := by
  intro k
  induction k with
  | nil =>
    intro t t' h
    cases t with
    | leaf _ => simp [setLeaf] at h; subst h; rfl
    | dir _ => simp [setLeaf] at h
  | cons s rest ih =>
    intro t t' h
    cases t with
    | leaf _ => simp [setLeaf] at h
    | dir cs =>
      cases hl : lookupChild s cs with
      | some n =>
        simp only [setLeaf, hl, Option.map_eq_some'] at h
        obtain ⟨n', hn', ht'⟩ := h
        subst ht'
        simp [getNode, lookup_replace_same s n' cs n hl, ih n n' hn']
      | none =>
        simp only [setLeaf, hl, Option.some.injEq] at h
        subst h
        simp [getNode, lookup_append_same s _ cs hl, getNode_freshPath]

theorem getNode_setLeaf_preserve (v : EVal) :
    ∀ (k2 : Key) (t t' : ENode) (k1 : Key) (v1 : EVal),
    setLeaf v k2 t = some t' →
    getNode t k1 = some (.leaf v1) →
    ¬ (k2 <+: k1) →
    getNode t' k1 = some (.leaf v1) := by
  intro k2
  induction k2 with
  | nil =>
    intro t t' k1 v1 hset hget hpre2
    cases t with
    | leaf lv =>
      cases k1 with
      | nil => exact absurd (List.nil_prefix) hpre2
      | cons a as => simp [getNode] at hget
    | dir _ => simp [setLeaf] at hset
  | cons s rest ih =>
    intro t t' k1 v1 hset hget hpre2
    cases t with
    | leaf _ => simp [setLeaf] at hset
    | dir cs =>
      cases k1 with
      | nil => simp [getNode] at hget
      | cons s1 rest1 =>
        cases hl1 : lookupChild s1 cs with
        | none => simp [getNode, hl1] at hget
        | some n1 =>
          have hget1 : getNode n1 rest1 = some (.leaf v1) := by
            simpa [getNode, hl1] using hget
          cases hl : lookupChild s cs with
          | some n =>
            simp only [setLeaf, hl, Option.map_eq_some'] at hset
            obtain ⟨n', hn', ht'⟩ := hset
            subst ht'
            by_cases hss : s = s1
            · subst hss
              have hnn : n1 = n := by rw [hl] at hl1; exact (Option.some.injEq _ _ ▸ hl1).symm
              subst hnn
              have hrest : ¬ (rest <+: rest1) :=
                fun hp => hpre2 (List.cons_prefix_cons.mpr ⟨rfl, hp⟩)
              simp [getNode, lookup_replace_same s n' cs n1 hl,
                ih n1 n' rest1 v1 hn' hget1 hrest]
            · have hne : s1 ≠ s := fun hc => hss hc.symm
              simp [getNode, lookup_replace_other s s1 n' hne cs, hl1, hget1]
          | none =>
            simp only [setLeaf, hl, Option.some.injEq] at hset
            subst hset
            by_cases hss : s = s1
            · subst hss; rw [hl] at hl1; exact absurd hl1 (by simp)
            · have hne : s1 ≠ s := fun hc => hss hc.symm
              simp [getNode, lookup_append_other s s1 _ hne cs, hl1, hget1]

theorem mdKey_not_pre_of_dataKey (pre key : Key) :
    ¬ (mdKeyOf pre key <+: dataKeyOf pre key) := by
  intro h
  have hlen := h.length_le
  simp only [mdKeyOf, dataKeyOf, List.append_assoc, List.length_append,
    List.length_cons, List.length_nil] at hlen
  omega

theorem retry_setOp_ok (b : Nat) (k : Key) (v : Bytes) (s : OpState) (t' : ENode)
    (h : setLeaf (.raw v) k s.w.tree = some t') :
    retry b (setOp healthy k v) s =
      ({ s with w := { tree := t', calls := s.w.calls ++ [⟨.set, k, false⟩] } }, none) :=
  retry_first_ok b (by simp [setOp, cliSet, healthy, h])

theorem retry_setOp_fail (k : Key) (v : Bytes) :
    ∀ (b : Nat) (s : OpState), setLeaf (.raw v) k s.w.tree = none →
    (retry b (setOp healthy k v) s).2 =
      some (.wrap "set: failed to set key value" (.notAFile k)) := by
  intro b
  induction b with
  | zero => intro s h; simp [retry, setOp, cliSet, healthy, h]
  | succ b ih =>
    intro s h
    have happ : setOp healthy k v s =
        ({ s with w := { s.w with calls := s.w.calls ++ [⟨.set, k, false⟩] } },
          some (.wrap "set: failed to set key value" (.notAFile k))) := by
      simp [setOp, cliSet, healthy, h]
    simp only [retry, happ]
    exact ih _ h

theorem retry_setMDOp_ok (b : Nat) (k : Key) (m : Metadata) (s : OpState) (t' : ENode)
    (h : setLeaf (.md m) k s.w.tree = some t') :
    retry b (setMDOp healthy k m) s =
      ({ s with w := { tree := t', calls := s.w.calls ++ [⟨.set, k, false⟩] } }, none) :=
  retry_first_ok b (by simp [setMDOp, cliSet, healthy, h])

theorem retry_setMDOp_fail (k : Key) (m : Metadata) :
    ∀ (b : Nat) (s : OpState), setLeaf (.md m) k s.w.tree = none →
    (retry b (setMDOp healthy k m) s).2 =
      some (.wrap "setmd: failed to set metadata value" (.notAFile k)) := by
  intro b
  induction b with
  | zero => intro s h; simp [retry, setMDOp, cliSet, healthy, h]
  | succ b ih =>
    intro s h
    have happ : setMDOp healthy k m s =
        ({ s with w := { s.w with calls := s.w.calls ++ [⟨.set, k, false⟩] } },
          some (.wrap "setmd: failed to set metadata value" (.notAFile k))) := by
      simp [setMDOp, cliSet, healthy, h]
    simp only [retry, happ]
    exact ih _ h

theorem cliGet_tree (env : Env) (k : Key) (rc : Bool) (w : World) :
    (cliGet env k rc w).1.tree = w.tree := by
  by_cases he : env ⟨.get, k, rc⟩
  · simp [cliGet, he]
  · cases hg : getNode w.tree k <;> simp [cliGet, he, hg]

theorem getMDOp_tree (env : Env) (k : Key) (s : OpState) :
    ((getMDOp env k) s).1.w.tree = s.w.tree := by
  have ht := cliGet_tree env k true s.w
  rcases hc : cliGet env k true s.w with ⟨w', r⟩
  rw [hc] at ht
  simp only [getMDOp, hc]
  cases r with
  | error e => simpa using ht
  | ok n =>
    rcases htc : toCNode k n with ⟨nk, nv, nd, nns⟩
    cases nd with
    | true =>
      rcases ha : aggregateMD (walkNodes (.mk k none true nns))
          { Path := k, Size := s.md.Size, Timestamp := s.md.Timestamp,
            Hash := s.md.Hash, IsDir := true } with ⟨m1, r1⟩
      cases r1 <;> (simp [htc, ha]; exact ht)
    | false =>
      cases hv : nv.bind unmarshalEVal <;> (simp [htc, hv]; exact ht)

theorem retry_tree_inv {o : Op OpState} (hinv : ∀ s, (o s).1.w.tree = s.w.tree) :
    ∀ (b : Nat) (s : OpState), (retry b o s).1.w.tree = s.w.tree := by
  intro b
  induction b with
  | zero => intro s; simpa [retry] using hinv s
  | succ b ih =>
    intro s
    rw [retry]
    rcases ho : o s with ⟨s', r⟩
    have h1 : s'.w.tree = s.w.tree := by rw [← hinv s, ho]
    cases r with
    | none => simpa using h1
    | some e => simpa using (ih s').trans h1

theorem pipelineAux_cons_ok {σ : Type} (R : List (Op σ)) (b : Nat) (c : Op σ)
    (cs : List (Op σ)) (idx : Nat) (s s1 : σ)
    (hc : retry b c s = (s1, none)) :
    pipelineAux R b (c :: cs) idx s = pipelineAux R b cs (idx + 1) s1 := by
  simp [pipelineAux, hc]

theorem pipelineAux_head_fail {σ : Type} (R : List (Op σ)) (b : Nat) (c : Op σ)
    (cs : List (Op σ)) (idx : Nat) (s : σ)
    (hf : (retry b c s).2.isSome = true) :
    (pipelineAux R b (c :: cs) idx s).2.isSome = true := by
  rcases hr : retry b c s with ⟨s1, r1⟩
  rw [hr] at hf
  cases r1 with
  | none => simp at hf
  | some e => simp [pipelineAux, hr]

theorem store_success_tree (A : Ambient) (nb : Bool) (b bp : Nat) (pre key : Key)
    (value : Bytes) (now : Time) (w w' : World)
    (h : StoreSrv A healthy nb b bp pre key value now w = (w', none)) :
    getNode w'.tree (dataKeyOf pre key) = some (.leaf (.raw value)) ∧
    getNode w'.tree (mdKeyOf pre key) =
      some (.leaf (.md (NewMetadata A key value now))) := by
  simp only [StoreSrv, executeR_exists_healthy] at h
  cases hex : (getNode w.tree (mdKeyOf pre key)).isSome with
  | false =>
    rw [hex] at h
    simp only [pipeline] at h
    rw [Prod.mk.injEq] at h
    obtain ⟨h1, h2⟩ := h
    revert h1 h2
    generalize [delOp healthy (dataKeyOf pre key), delOp healthy (mdKeyOf pre key)] = R
    intro h1 h2
    cases hset : setLeaf (.raw value) (dataKeyOf pre key) w.tree with
    | none =>
      exfalso
      have hfl := retry_setOp_fail (dataKeyOf pre key) value bp
        ⟨⟨w.tree, w.calls ++ [Req.mk ReqKind.get (mdKeyOf pre key) false]⟩, [], zeroMetadata⟩ hset
      have hcontra := pipelineAux_head_fail R bp
        (setOp healthy (dataKeyOf pre key) value)
        [setMDOp healthy (mdKeyOf pre key) (NewMetadata A key value now)] 0
        ⟨⟨w.tree, w.calls ++ [Req.mk ReqKind.get (mdKeyOf pre key) false]⟩, [], zeroMetadata⟩
        (by rw [hfl]; rfl)
      rw [h2] at hcontra
      simp at hcontra
    | some t1 =>
      have step1 := pipelineAux_cons_ok R bp
        (setOp healthy (dataKeyOf pre key) value)
        [setMDOp healthy (mdKeyOf pre key) (NewMetadata A key value now)] 0
        ⟨⟨w.tree, w.calls ++ [Req.mk ReqKind.get (mdKeyOf pre key) false]⟩, [], zeroMetadata⟩
        ⟨⟨t1, (w.calls ++ [Req.mk ReqKind.get (mdKeyOf pre key) false])
          ++ [Req.mk ReqKind.set (dataKeyOf pre key) false]⟩, [], zeroMetadata⟩
        (retry_setOp_ok bp (dataKeyOf pre key) value
          ⟨⟨w.tree, w.calls ++ [Req.mk ReqKind.get (mdKeyOf pre key) false]⟩, [], zeroMetadata⟩
          t1 hset)
      cases hset2 : setLeaf (.md (NewMetadata A key value now)) (mdKeyOf pre key) t1 with
      | none =>
        exfalso
        have hfl := retry_setMDOp_fail (mdKeyOf pre key) (NewMetadata A key value now) bp
          ⟨⟨t1, (w.calls ++ [Req.mk ReqKind.get (mdKeyOf pre key) false])
            ++ [Req.mk ReqKind.set (dataKeyOf pre key) false]⟩, [], zeroMetadata⟩ hset2
        have hcontra := pipelineAux_head_fail R bp
          (setMDOp healthy (mdKeyOf pre key) (NewMetadata A key value now)) [] 1
          ⟨⟨t1, (w.calls ++ [Req.mk ReqKind.get (mdKeyOf pre key) false])
            ++ [Req.mk ReqKind.set (dataKeyOf pre key) false]⟩, [], zeroMetadata⟩
          (by rw [hfl]; rfl)
        rw [step1] at h2
        rw [h2] at hcontra
        simp at hcontra
      | some t2 =>
        have step2 := pipelineAux_cons_ok R bp
          (setMDOp healthy (mdKeyOf pre key) (NewMetadata A key value now)) [] 1
          ⟨⟨t1, (w.calls ++ [Req.mk ReqKind.get (mdKeyOf pre key) false])
            ++ [Req.mk ReqKind.set (dataKeyOf pre key) false]⟩, [], zeroMetadata⟩
          ⟨⟨t2, ((w.calls ++ [Req.mk ReqKind.get (mdKeyOf pre key) false])
            ++ [Req.mk ReqKind.set (dataKeyOf pre key) false])
            ++ [Req.mk ReqKind.set (mdKeyOf pre key) false]⟩, [], zeroMetadata⟩
          (retry_setMDOp_ok bp (mdKeyOf pre key) (NewMetadata A key value now)
            ⟨⟨t1, (w.calls ++ [Req.mk ReqKind.get (mdKeyOf pre key) false])
              ++ [Req.mk ReqKind.set (dataKeyOf pre key) false]⟩, [], zeroMetadata⟩
            t2 hset2)
        rw [step1, step2] at h1
        constructor
        · rw [← h1]
          exact getNode_setLeaf_preserve (.md (NewMetadata A key value now))
            (mdKeyOf pre key) t1 t2 (dataKeyOf pre key) (.raw value) hset2
            (getNode_setLeaf_self (.raw value) (dataKeyOf pre key) w.tree t1 hset)
            (mdKey_not_pre_of_dataKey pre key)
        · rw [← h1]
          exact getNode_setLeaf_self (.md (NewMetadata A key value now))
            (mdKeyOf pre key) t1 t2 hset2
  | true =>
    rw [hex] at h
    simp only [pipeline] at h
    rw [Prod.mk.injEq] at h
    obtain ⟨h1, h2⟩ := h
    revert h1 h2
    generalize [noopOp, noopOp, setOp healthy (dataKeyOf pre key) [],
      setMDOp healthy (mdKeyOf pre key) zeroMetadata] = R
    intro h1 h2
    have step1 := pipelineAux_cons_ok R bp
      (getOp A healthy (dataKeyOf pre key))
      [getMDOp healthy (mdKeyOf pre key), setOp healthy (dataKeyOf pre key) value,
        setMDOp healthy (mdKeyOf pre key) (NewMetadata A key value now)] 0
      ⟨⟨w.tree, w.calls ++ [Req.mk ReqKind.get (mdKeyOf pre key) false]⟩, [], zeroMetadata⟩
      ⟨⟨w.tree, (w.calls ++ [Req.mk ReqKind.get (mdKeyOf pre key) false])
        ++ [Req.mk ReqKind.get (dataKeyOf pre key) false]⟩,
        dataBytesAt A w.tree (dataKeyOf pre key), zeroMetadata⟩
      (retry_first_ok bp (getOp_healthy A (dataKeyOf pre key)
        ⟨⟨w.tree, w.calls ++ [Req.mk ReqKind.get (mdKeyOf pre key) false]⟩, [], zeroMetadata⟩))
    rcases hmd : retry bp (getMDOp healthy (mdKeyOf pre key))
      ⟨⟨w.tree, (w.calls ++ [Req.mk ReqKind.get (mdKeyOf pre key) false])
        ++ [Req.mk ReqKind.get (dataKeyOf pre key) false]⟩,
        dataBytesAt A w.tree (dataKeyOf pre key), zeroMetadata⟩ with ⟨S2, r2⟩
    cases r2 with
    | some e2 =>
      exfalso
      have hcontra := pipelineAux_head_fail R bp
        (getMDOp healthy (mdKeyOf pre key))
        [setOp healthy (dataKeyOf pre key) value,
          setMDOp healthy (mdKeyOf pre key) (NewMetadata A key value now)] 1
        ⟨⟨w.tree, (w.calls ++ [Req.mk ReqKind.get (mdKeyOf pre key) false])
          ++ [Req.mk ReqKind.get (dataKeyOf pre key) false]⟩,
          dataBytesAt A w.tree (dataKeyOf pre key), zeroMetadata⟩
        (by rw [hmd]; rfl)
      rw [step1] at h2
      rw [h2] at hcontra
      simp at hcontra
    | none =>
      have htree2 : S2.w.tree = w.tree := by
        have hti := retry_tree_inv (getMDOp_tree healthy (mdKeyOf pre key)) bp
          ⟨⟨w.tree, (w.calls ++ [Req.mk ReqKind.get (mdKeyOf pre key) false])
            ++ [Req.mk ReqKind.get (dataKeyOf pre key) false]⟩,
            dataBytesAt A w.tree (dataKeyOf pre key), zeroMetadata⟩
        rw [hmd] at hti
        exact hti
      have step2 := pipelineAux_cons_ok R bp
        (getMDOp healthy (mdKeyOf pre key))
        [setOp healthy (dataKeyOf pre key) value,
          setMDOp healthy (mdKeyOf pre key) (NewMetadata A key value now)] 1
        ⟨⟨w.tree, (w.calls ++ [Req.mk ReqKind.get (mdKeyOf pre key) false])
          ++ [Req.mk ReqKind.get (dataKeyOf pre key) false]⟩,
          dataBytesAt A w.tree (dataKeyOf pre key), zeroMetadata⟩
        S2 hmd
      cases hset : setLeaf (.raw value) (dataKeyOf pre key) w.tree with
      | none =>
        exfalso
        have hset' : setLeaf (.raw value) (dataKeyOf pre key) S2.w.tree = none := by
          rw [htree2]; exact hset
        have hfl := retry_setOp_fail (dataKeyOf pre key) value bp S2 hset'
        have hcontra := pipelineAux_head_fail R bp
          (setOp healthy (dataKeyOf pre key) value)
          [setMDOp healthy (mdKeyOf pre key) (NewMetadata A key value now)] 2 S2
          (by rw [hfl]; rfl)
        rw [step1, step2] at h2
        rw [h2] at hcontra
        simp at hcontra
      | some t1 =>
        have hset' : setLeaf (.raw value) (dataKeyOf pre key) S2.w.tree = some t1 := by
          rw [htree2]; exact hset
        have step3 := pipelineAux_cons_ok R bp
          (setOp healthy (dataKeyOf pre key) value)
          [setMDOp healthy (mdKeyOf pre key) (NewMetadata A key value now)] 2 S2
          ⟨⟨t1, S2.w.calls ++ [Req.mk ReqKind.set (dataKeyOf pre key) false]⟩, S2.buf, S2.md⟩
          (retry_setOp_ok bp (dataKeyOf pre key) value S2 t1 hset')
        cases hset2 : setLeaf (.md (NewMetadata A key value now)) (mdKeyOf pre key) t1 with
        | none =>
          exfalso
          have hfl := retry_setMDOp_fail (mdKeyOf pre key) (NewMetadata A key value now) bp
            ⟨⟨t1, S2.w.calls ++ [Req.mk ReqKind.set (dataKeyOf pre key) false]⟩, S2.buf, S2.md⟩
            hset2
          have hcontra := pipelineAux_head_fail R bp
            (setMDOp healthy (mdKeyOf pre key) (NewMetadata A key value now)) [] 3
            ⟨⟨t1, S2.w.calls ++ [Req.mk ReqKind.set (dataKeyOf pre key) false]⟩, S2.buf, S2.md⟩
            (by rw [hfl]; rfl)
          rw [step1, step2, step3] at h2
          rw [h2] at hcontra
          simp at hcontra
        | some t2 =>
          have step4 := pipelineAux_cons_ok R bp
            (setMDOp healthy (mdKeyOf pre key) (NewMetadata A key value now)) [] 3
            ⟨⟨t1, S2.w.calls ++ [Req.mk ReqKind.set (dataKeyOf pre key) false]⟩, S2.buf, S2.md⟩
            ⟨⟨t2, (S2.w.calls ++ [Req.mk ReqKind.set (dataKeyOf pre key) false])
              ++ [Req.mk ReqKind.set (mdKeyOf pre key) false]⟩, S2.buf, S2.md⟩
            (retry_setMDOp_ok bp (mdKeyOf pre key) (NewMetadata A key value now)
              ⟨⟨t1, S2.w.calls ++ [Req.mk ReqKind.set (dataKeyOf pre key) false]⟩, S2.buf, S2.md⟩
              t2 hset2)
          rw [step1, step2, step3, step4] at h1
          constructor
          · rw [← h1]
            exact getNode_setLeaf_preserve (.md (NewMetadata A key value now))
              (mdKeyOf pre key) t1 t2 (dataKeyOf pre key) (.raw value) hset2
              (getNode_setLeaf_self (.raw value) (dataKeyOf pre key) w.tree t1 hset)
              (mdKey_not_pre_of_dataKey pre key)
          · rw [← h1]
            exact getNode_setLeaf_self (.md (NewMetadata A key value now))
              (mdKeyOf pre key) t1 t2 hset2

theorem loadSrv_leaf_ok (A : Ambient) (nb : Bool) (b : Nat) (pre key : Key)
    (w : World) (m : Metadata)
    (h : getNode w.tree (mdKeyOf pre key) = some (.leaf (.md m)))
    (heq : A.sha1Sum (dataBytesAt A w.tree (dataKeyOf pre key)) = m.Hash) :
    (LoadSrv A healthy nb b pre key w).2 =
      .ok (dataBytesAt A w.tree (dataKeyOf pre key)) := by
  simp only [LoadSrv, executeR_exists_healthy, h, Option.isSome_some,
    executeOp_getOp_healthy]
  rw [executeOp_getMDOp_leaf nb b (mdKeyOf pre key) m
    ⟨⟨w.tree, w.calls ++ [Req.mk ReqKind.get (mdKeyOf pre key) false]⟩, [], zeroMetadata⟩ h]
  simp [heq]

theorem metadataSrv_leaf (nb : Bool) (b : Nat) (pre key : Key) (w : World) (m : Metadata)
    (h : getNode w.tree (mdKeyOf pre key) = some (.leaf (.md m)))
    (hdir : m.IsDir = false) :
    (MetadataSrv healthy nb b pre key w).2 = .ok m := by
  simp only [MetadataSrv, executeR_exists_healthy, h, Option.isSome_some]
  rw [executeOp_getMDOp_leaf nb b (mdKeyOf pre key) m
    ⟨⟨w.tree, w.calls ++ [Req.mk ReqKind.get (mdKeyOf pre key) false]⟩, [], zeroMetadata⟩ h]
  simp [hdir]

/-- C1: a successful `Store(k, v)` followed by `Load(k)` returns `v`
unchanged, and `Metadata(k)` returns the freshly created record, whose Hash
is the digest of `v` (against a healthy store, for any backoff settings). -/
theorem store_load_roundtrip (A : Ambient) (nb nb2 : Bool) (b bp b2 : Nat)
    (pre key : Key) (value : Bytes) (now : Time) (w w' : World)
    (_hv : value ≠ [])
    (h : StoreSrv A healthy nb b bp pre key value now w = (w', none)) :
    (LoadSrv A healthy nb2 b2 pre key w').2 = .ok value ∧
    (MetadataSrv healthy nb2 b2 pre key w').2 = .ok (NewMetadata A key value now) ∧
    (NewMetadata A key value now).Hash = A.sha1Sum value := by
  obtain ⟨hdata, hmd⟩ := store_success_tree A nb b bp pre key value now w w' h
  have hdb : dataBytesAt A w'.tree (dataKeyOf pre key) = value := by
    simp [dataBytesAt, hdata, valBytes]
  refine ⟨?_, ?_, rfl⟩
  · have hload := loadSrv_leaf_ok A nb2 b2 pre key w' (NewMetadata A key value now) hmd
      (by rw [hdb]; rfl)
    rw [hdb] at hload
    exact hload
  · exact metadataSrv_leaf nb2 b2 pre key w' (NewMetadata A key value now) hmd rfl

theorem store_load_roundtrip_witness :
    (LoadSrv testAmbient healthy true 0 ["caddy"] ["f"] storedV1World).2 =
      .ok [118, 49] ∧
    (MetadataSrv healthy true 0 ["caddy"] ["f"] storedV1World).2 =
      .ok (NewMetadata testAmbient ["f"] [118, 49] 5) ∧
    (NewMetadata testAmbient ["f"] [118, 49] 5).Hash =
      testAmbient.sha1Sum [118, 49] := by
  exact store_load_roundtrip testAmbient true true 0 0 0 ["caddy"] ["f"]
    [118, 49] 5 { tree := emptyRoot, calls := [] } storedV1World
    (by decide) rfl
